import Mathlib

/-!
Verification development for the BitBLT specialization engine.

The embedding below follows the JavaScript sources of the repository:

* `src/reference/bitblt.js` — the scan-based reference implementation
  (the oracle): functions `bitblt` and `createTestBuffer`.
* `src/bitblt.js` — the dispatch layer: `getPixel`, `buffersAreEqual`,
  `findFirstDifference`, the top-level `bitblt` entry and its
  configuration defaults.
* `src/compiler/generators/JavaScriptGenerator.js` — the textual
  back-end: `generate`, `compile`, `execute`, `getCacheKey`,
  `analyzeOperation`, `clearCache`.
* `src/compiler/generators/wasm-binary-utils.js` — `encodeULEB128`,
  `encodeSLEB128`, opcode/value-type constants.
* `src/compiler/generators/wasm-bitblt-generator.js` —
  `generateBitBLTFunctionBody`, the opcode stream of the binary
  back-end's function body.

Pixel buffers (JS `Uint32Array`) are modelled as `List Nat` whose
elements are the 32-bit words (values `< 2^32` when produced by the
code; reads out of range give the JS `undefined`, which every bitwise
operator coerces to `0`, hence `List.getD _ 0`; writes out of range are
dropped by `Uint32Array`, matching `List.set`'s out-of-range no-op).
-/

namespace BitBLT

/-- `Math.ceil(width / 32)` for a nonnegative integer `width`
(`src/bitblt.js` line 114, `src/reference/bitblt.js` lines 15-16). -/
def widthInUint32 (width : Nat) : Nat := (width + 31) / 32

/-- Word index `Math.floor(x/32) + y * Math.ceil(width/32)` of pixel
`(x, y)` in a buffer of pixel width `width`. -/
def elementIndex (width x y : Nat) : Nat := x / 32 + y * widthInUint32 width

/-- `getPixel(buffer, width, x, y)` from `src/bitblt.js` lines 113-118:
`(buffer[Math.floor(x/32) + y*Math.ceil(width/32)] >>> (x % 32)) & 1`.
An out-of-range element read yields `undefined`, and `undefined >>> n`
is `0` in JS, so the absent element is `0`. -/
def getPixel (buffer : List Nat) (width x y : Nat) : Nat :=
  (buffer.getD (elementIndex width x y) 0 >>> (x % 32)) &&& 1

/-- Effect of `dstBuffer[i] |= 1 << bitPos` on the stored 32-bit word
(`src/reference/bitblt.js` line 46): the word is or-ed with `2^bitPos`.
For `bitPos = 31` the JS int32 intermediate is negative, but storing it
into the `Uint32Array` takes it mod `2^32`, which is the value below
whenever the stored word is `< 2^32`. -/
def setBitWord (w bitPos : Nat) : Nat := w ||| (1 <<< bitPos)

/-- Effect of `dstBuffer[i] &= ~(1 << bitPos)` on the stored 32-bit word
(`src/reference/bitblt.js` line 49): `~v` is two's complement, so for
`bitPos < 32` the stored word is and-ed with `2^32 - 1 - 2^bitPos`. -/
def clearBitWord (w bitPos : Nat) : Nat := w &&& (0xffffffff ^^^ (1 <<< bitPos))

/-- One iteration of the inner loop of the reference `bitblt`
(`src/reference/bitblt.js` lines 25-51) at loop indices `x`, `y`:
reads the source bit and sets or clears the destination bit. -/
def copyPixel (srcBuffer : List Nat) (srcWidth srcX srcY : Nat)
    (dstWidth dstX dstY : Nat) (y x : Nat) (dstBuffer : List Nat) : List Nat :=
  let srcXPos := srcX + x
  let dstXPos := dstX + x
  let srcYPos := srcY + y
  let dstYPos := dstY + y
  let srcElementIndex := elementIndex srcWidth srcXPos srcYPos
  let dstElementIndex := elementIndex dstWidth dstXPos dstYPos
  let srcBitPos := srcXPos % 32
  let dstBitPos := dstXPos % 32
  let srcBit := (srcBuffer.getD srcElementIndex 0 >>> srcBitPos) &&& 1
  if srcBit = 1 then
    dstBuffer.set dstElementIndex (setBitWord (dstBuffer.getD dstElementIndex 0) dstBitPos)
  else
    dstBuffer.set dstElementIndex (clearBitWord (dstBuffer.getD dstElementIndex 0) dstBitPos)

/-- The inner loop `for (let x = 0; x < width; x++)` of the reference
`bitblt` for row `y`, processing `x = 0, …, width-1` in order. -/
def blitRow (srcBuffer : List Nat) (srcWidth srcX srcY : Nat)
    (dstWidth dstX dstY : Nat) (y : Nat) :
    Nat → List Nat → List Nat
  | 0, dstBuffer => dstBuffer
  | width + 1, dstBuffer =>
      copyPixel srcBuffer srcWidth srcX srcY dstWidth dstX dstY y width
        (blitRow srcBuffer srcWidth srcX srcY dstWidth dstX dstY y width dstBuffer)

/-- The outer loop `for (let y = 0; y < height; y++)` of the reference
`bitblt`, processing rows `y = 0, …, height-1` in order. -/
def blitRows (srcBuffer : List Nat) (srcWidth srcX srcY : Nat)
    (dstWidth dstX dstY width : Nat) :
    Nat → List Nat → List Nat
  | 0, dstBuffer => dstBuffer
  | height + 1, dstBuffer =>
      blitRow srcBuffer srcWidth srcX srcY dstWidth dstX dstY height width
        (blitRows srcBuffer srcWidth srcX srcY dstWidth dstX dstY width height dstBuffer)

/-- The reference `bitblt` from `src/reference/bitblt.js` lines 1-53.
`srcHeight` is accepted (the JS function takes it) but, exactly as in
the source, it is never read. The function returns the final state of
the destination buffer. -/
def bitbltRef (srcBuffer : List Nat) (srcWidth srcHeight srcX srcY : Nat)
    (dstBuffer : List Nat) (dstWidth dstX dstY width height : Nat) : List Nat :=
  blitRows srcBuffer srcWidth srcX srcY dstWidth dstX dstY width height dstBuffer

/-! ### Bit-level helper lemmas -/

theorem shr_and_one (v c : Nat) : (v >>> c) &&& 1 = if v.testBit c then 1 else 0 := by
  rw [Nat.and_one_is_mod, Nat.shiftRight_eq_div_pow, Nat.testBit_to_div_mod]
  rcases Nat.mod_two_eq_zero_or_one (v / 2 ^ c) with h | h <;> simp [h]

theorem one_shiftLeft (b : Nat) : (1 : Nat) <<< b = 2 ^ b := by
  rw [Nat.shiftLeft_eq, one_mul]

theorem mask32_testBit (b : Nat) (hb : b < 32) : Nat.testBit 0xffffffff b = true := by
  have h : (0xffffffff : Nat) = 2 ^ 32 - 1 := by norm_num
  rw [h, Nat.testBit_two_pow_sub_one]
  simpa using hb

theorem setBitWord_testBit (v b c : Nat) :
    (setBitWord v b).testBit c = (v.testBit c || decide (b = c)) := by
  rw [setBitWord, one_shiftLeft, Nat.testBit_or, Nat.testBit_two_pow]

theorem clearBitWord_testBit (v b c : Nat) (hc : c < 32) :
    (clearBitWord v b).testBit c = (v.testBit c && !decide (b = c)) := by
  rw [clearBitWord, one_shiftLeft, Nat.testBit_and, Nat.testBit_xor,
    mask32_testBit c hc, Nat.testBit_two_pow]
  cases v.testBit c <;> cases hbc : decide (b = c) <;> simp

theorem getPixel_eq_testBit (buffer : List Nat) (width x y : Nat) :
    getPixel buffer width x y =
      if (buffer.getD (elementIndex width x y) 0).testBit (x % 32) then 1 else 0 :=
  shr_and_one _ _

/-! ### Buffer index helper lemmas -/

theorem width_le_32_stride (W : Nat) : W ≤ 32 * widthInUint32 W := by
  have h1 := Nat.div_add_mod (W + 31) 32
  have h2 : (W + 31) % 32 < 32 := Nat.mod_lt _ (by omega)
  unfold widthInUint32
  omega

theorem div32_lt_stride {X W : Nat} (h : X < W) : X / 32 < widthInUint32 W := by
  have h1 := width_le_32_stride W
  have h2 := Nat.div_mul_le_self X 32
  omega

theorem stride_pos {W : Nat} (h : 0 < W) : 0 < widthInUint32 W := by
  have := width_le_32_stride W
  omega

/-- Distinct pixel coordinates inside the buffer width map to distinct
(word index, bit position) pairs; conversely, an equal word index pins
down the row and the word column. -/
theorem elementIndex_inj {W X1 Y1 X2 Y2 : Nat} (h1 : X1 < W) (h2 : X2 < W)
    (heq : elementIndex W X1 Y1 = elementIndex W X2 Y2) :
    X1 / 32 = X2 / 32 ∧ Y1 = Y2 := by
  have a1 := div32_lt_stride h1
  have a2 := div32_lt_stride h2
  have hs : 0 < widthInUint32 W := by omega
  unfold elementIndex at heq
  have hd1 : (X1 / 32 + Y1 * widthInUint32 W) / widthInUint32 W = X1 / 32 / widthInUint32 W + Y1 :=
    Nat.add_mul_div_right _ _ hs
  have hd2 : (X2 / 32 + Y2 * widthInUint32 W) / widthInUint32 W = X2 / 32 / widthInUint32 W + Y2 :=
    Nat.add_mul_div_right _ _ hs
  have hm1 : (X1 / 32 + Y1 * widthInUint32 W) % widthInUint32 W = X1 / 32 := by
    rw [Nat.add_mul_mod_self_right]; exact Nat.mod_eq_of_lt a1
  have hm2 : (X2 / 32 + Y2 * widthInUint32 W) % widthInUint32 W = X2 / 32 := by
    rw [Nat.add_mul_mod_self_right]; exact Nat.mod_eq_of_lt a2
  have hxe : X1 / 32 = X2 / 32 := by rw [← hm1, ← hm2, heq]
  refine ⟨hxe, ?_⟩
  have := heq
  rw [← hd1, ← hd2] at *
  have h3 : X1 / 32 / widthInUint32 W + Y1 = X2 / 32 / widthInUint32 W + Y2 := by
    rw [← Nat.add_mul_div_right _ _ hs, ← Nat.add_mul_div_right _ _ hs, heq]
  have h4 : X1 / 32 / widthInUint32 W = X2 / 32 / widthInUint32 W := by rw [hxe]
  omega

theorem elementIndex_lt_length {W X Y H L : Nat} (hX : X < W) (hY : Y < H)
    (hlen : widthInUint32 W * H ≤ L) : elementIndex W X Y < L := by
  have a1 := div32_lt_stride hX
  unfold elementIndex
  have h1 : (Y + 1) * widthInUint32 W ≤ H * widthInUint32 W :=
    Nat.mul_le_mul_right _ (by omega)
  have h2 : (Y + 1) * widthInUint32 W = Y * widthInUint32 W + widthInUint32 W := by ring
  have h3 : H * widthInUint32 W = widthInUint32 W * H := by ring
  omega

theorem getD_set (l : List Nat) (i j a : Nat) :
    (l.set i a).getD j 0 = if i = j ∧ i < l.length then a else l.getD j 0 := by
  rw [List.getD_eq_getElem?_getD, List.getD_eq_getElem?_getD, List.getElem?_set]
  by_cases hij : i = j
  · subst hij
    by_cases hil : i < l.length
    · simp [hil]
    · have h0 : l.length ≤ i := by omega
      simp [hil, List.getElem?_eq_none h0]
  · simp [hij]

/-! ### Characterizing the reference scan loop, one pixel at a time -/

theorem copyPixel_eq (src : List Nat) (srcW srcX srcY dstW dstX dstY y x : Nat)
    (dst : List Nat) :
    copyPixel src srcW srcX srcY dstW dstX dstY y x dst =
      dst.set (elementIndex dstW (dstX + x) (dstY + y))
        (if getPixel src srcW (srcX + x) (srcY + y) = 1 then
          setBitWord (dst.getD (elementIndex dstW (dstX + x) (dstY + y)) 0) ((dstX + x) % 32)
        else
          clearBitWord (dst.getD (elementIndex dstW (dstX + x) (dstY + y)) 0) ((dstX + x) % 32)) := by
  simp only [copyPixel, getPixel]
  split <;> rfl

/-- Reading any pixel of a buffer after overwriting a single word. -/
theorem getPixel_set (dst : List Nat) (dstW : Nat) (i w X Y : Nat) (hi : i < dst.length) :
    getPixel (dst.set i w) dstW X Y =
      if i = elementIndex dstW X Y then (w >>> (X % 32)) &&& 1
      else getPixel dst dstW X Y := by
  simp only [getPixel, getD_set]
  by_cases h : i = elementIndex dstW X Y
  · subst h
    simp [hi]
  · simp [h]

theorem getPixel_zero_or_one (buffer : List Nat) (width x y : Nat) :
    getPixel buffer width x y = 0 ∨ getPixel buffer width x y = 1 := by
  rw [getPixel_eq_testBit]
  split <;> simp

/-- Effect of one `copyPixel` step on an arbitrary in-range pixel of the
destination: the written pixel takes the source bit, all others are
untouched. -/
theorem getPixel_copyPixel (src : List Nat) (srcW srcX srcY dstW dstX dstY y x : Nat)
    (dst : List Nat) (dstH : Nat)
    (hx : dstX + x < dstW) (hy : dstY + y < dstH)
    (hlen : widthInUint32 dstW * dstH ≤ dst.length)
    (X Y : Nat) (hX : X < dstW) (hY : Y < dstH) :
    getPixel (copyPixel src srcW srcX srcY dstW dstX dstY y x dst) dstW X Y =
      if X = dstX + x ∧ Y = dstY + y then getPixel src srcW (srcX + x) (srcY + y)
      else getPixel dst dstW X Y := by
  have hiW : elementIndex dstW (dstX + x) (dstY + y) < dst.length :=
    elementIndex_lt_length hx hy hlen
  rw [copyPixel_eq, getPixel_set _ _ _ _ _ _ hiW]
  by_cases hidx : elementIndex dstW (dstX + x) (dstY + y) = elementIndex dstW X Y
  · rw [if_pos hidx]
    obtain ⟨hdiv, hYe⟩ := elementIndex_inj hx hX hidx
    by_cases hXx : X = dstX + x
    · subst hXx
      subst hYe
      rw [if_pos (show dstX + x = dstX + x ∧ dstY + y = dstY + y from ⟨rfl, rfl⟩)]
      rcases getPixel_zero_or_one src srcW (srcX + x) (srcY + y) with hsp | hsp <;> rw [hsp]
      · rw [if_neg (show ¬(0 : Nat) = 1 by omega), shr_and_one,
          clearBitWord_testBit _ _ _ (Nat.mod_lt _ (by omega))]
        simp
      · rw [if_pos (show (1 : Nat) = 1 from rfl), shr_and_one, setBitWord_testBit]
        simp
    · rw [if_neg (show ¬(X = dstX + x ∧ Y = dstY + y) from fun hc => hXx hc.1)]
      have hbit : (dstX + x) % 32 ≠ X % 32 := by
        intro hc
        have e1 := Nat.div_add_mod (dstX + x) 32
        have e2 := Nat.div_add_mod X 32
        omega
      rw [getPixel_eq_testBit dst, ← hidx]
      split
      · rw [shr_and_one, setBitWord_testBit]
        simp [hbit]
      · rw [shr_and_one, clearBitWord_testBit _ _ _ (Nat.mod_lt _ (by omega))]
        simp [hbit]
  · rw [if_neg hidx,
      if_neg (show ¬(X = dstX + x ∧ Y = dstY + y) from fun hc => hidx (by rw [hc.1, hc.2]))]

theorem length_copyPixel (src : List Nat) (srcW srcX srcY dstW dstX dstY y x : Nat)
    (dst : List Nat) :
    (copyPixel src srcW srcX srcY dstW dstX dstY y x dst).length = dst.length := by
  rw [copyPixel_eq, List.length_set]

theorem length_blitRow (src : List Nat) (srcW srcX srcY dstW dstX dstY y w : Nat)
    (dst : List Nat) :
    (blitRow src srcW srcX srcY dstW dstX dstY y w dst).length = dst.length := by
  induction w generalizing dst with
  | zero => rfl
  | succ w ih => rw [blitRow, length_copyPixel, ih]

theorem length_blitRows (src : List Nat) (srcW srcX srcY dstW dstX dstY w h : Nat)
    (dst : List Nat) :
    (blitRows src srcW srcX srcY dstW dstX dstY w h dst).length = dst.length := by
  induction h generalizing dst with
  | zero => rfl
  | succ h ih => rw [blitRows, length_blitRow, ih]

/-- Effect of one full row of the reference scan loop. -/
theorem getPixel_blitRow (src : List Nat) (srcW srcX srcY dstW dstX dstY y w : Nat)
    (dst : List Nat) (dstH : Nat)
    (hw : dstX + w ≤ dstW) (hy : dstY + y < dstH)
    (hlen : widthInUint32 dstW * dstH ≤ dst.length)
    (X Y : Nat) (hX : X < dstW) (hY : Y < dstH) :
    getPixel (blitRow src srcW srcX srcY dstW dstX dstY y w dst) dstW X Y =
      if dstX ≤ X ∧ X < dstX + w ∧ Y = dstY + y then
        getPixel src srcW (srcX + (X - dstX)) (srcY + y)
      else getPixel dst dstW X Y := by
  induction w generalizing dst with
  | zero =>
      rw [blitRow, if_neg (by omega)]
  | succ w ih =>
      rw [blitRow, getPixel_copyPixel _ _ _ _ _ _ _ _ _ _ dstH (by omega) hy
        (by rw [length_blitRow]; exact hlen) X Y hX hY]
      by_cases hlast : X = dstX + w ∧ Y = dstY + y
      · rw [if_pos hlast, if_pos (by omega)]
        have hXx : X - dstX = w := by omega
        rw [hXx]
      · rw [if_neg hlast, ih dst (by omega) hlen]
        by_cases hin : dstX ≤ X ∧ X < dstX + w ∧ Y = dstY + y
        · rw [if_pos hin, if_pos (by omega)]
        · rw [if_neg hin, if_neg (by omega)]

/-- Effect of the complete reference scan loop on any in-range
destination pixel. -/
theorem getPixel_blitRows (src : List Nat) (srcW srcX srcY dstW dstX dstY w h : Nat)
    (dst : List Nat) (dstH : Nat)
    (hw : dstX + w ≤ dstW) (hh : dstY + h ≤ dstH)
    (hlen : widthInUint32 dstW * dstH ≤ dst.length)
    (X Y : Nat) (hX : X < dstW) (hY : Y < dstH) :
    getPixel (blitRows src srcW srcX srcY dstW dstX dstY w h dst) dstW X Y =
      if dstX ≤ X ∧ X < dstX + w ∧ dstY ≤ Y ∧ Y < dstY + h then
        getPixel src srcW (srcX + (X - dstX)) (srcY + (Y - dstY))
      else getPixel dst dstW X Y := by
  induction h generalizing dst with
  | zero =>
      rw [blitRows, if_neg (by omega)]
  | succ h ih =>
      rw [blitRows, getPixel_blitRow _ _ _ _ _ _ _ _ _ _ dstH hw (by omega)
        (by rw [length_blitRows]; exact hlen) X Y hX hY]
      by_cases hlast : dstX ≤ X ∧ X < dstX + w ∧ Y = dstY + h
      · rw [if_pos hlast, if_pos (by omega)]
        have hYy : Y - dstY = h := by omega
        rw [hYy]
      · rw [if_neg hlast, ih dst (by omega) hlen]
        by_cases hin : dstX ≤ X ∧ X < dstX + w ∧ dstY ≤ Y ∧ Y < dstY + h
        · rw [if_pos hin, if_pos (by omega)]
        · rw [if_neg hin, if_neg (by omega)]

/-- Claim C2: after a call to the reference `bitblt` whose copy
rectangle lies inside both buffers (source and destination being
separate buffers, which models their disjointness), every pixel of the
copy rectangle of the destination equals the corresponding source pixel
as extracted by `getPixel`, and every destination pixel outside the
copy rectangle is unchanged. `dstHeight` is the pixel height of the
destination buffer (its word count is `ceil(dstWidth/32) * dstHeight`).  -/
theorem bitbltRef_correct (srcBuffer : List Nat)
    (srcWidth srcHeight srcX srcY : Nat) (dstBuffer : List Nat)
    (dstWidth dstHeight dstX dstY width height : Nat)
    (hsx : srcX + width ≤ srcWidth) (hsy : srcY + height ≤ srcHeight)
    (hdx : dstX + width ≤ dstWidth) (hdy : dstY + height ≤ dstHeight)
    (hlen : widthInUint32 dstWidth * dstHeight ≤ dstBuffer.length) :
    (∀ x, x < width → ∀ y, y < height →
      getPixel (bitbltRef srcBuffer srcWidth srcHeight srcX srcY dstBuffer
          dstWidth dstX dstY width height) dstWidth (dstX + x) (dstY + y) =
        getPixel srcBuffer srcWidth (srcX + x) (srcY + y)) ∧
    (∀ X, X < dstWidth → ∀ Y, Y < dstHeight →
      ¬(dstX ≤ X ∧ X < dstX + width ∧ dstY ≤ Y ∧ Y < dstY + height) →
      getPixel (bitbltRef srcBuffer srcWidth srcHeight srcX srcY dstBuffer
          dstWidth dstX dstY width height) dstWidth X Y =
        getPixel dstBuffer dstWidth X Y) := by
  constructor
  · intro x hxw y hyh
    rw [bitbltRef, getPixel_blitRows _ _ _ _ _ _ _ _ _ _ dstHeight hdx hdy hlen
      _ _ (by omega) (by omega), if_pos (by omega)]
    have h1 : dstX + x - dstX = x := by omega
    have h2 : dstY + y - dstY = y := by omega
    rw [h1, h2]
  · intro X hX Y hY hout
    rw [bitbltRef, getPixel_blitRows _ _ _ _ _ _ _ _ _ _ dstHeight hdx hdy hlen
      _ _ hX hY, if_neg hout]

/-- Witness for `bitbltRef_correct`: a concrete valid 1-by-1 copy. -/
theorem bitbltRef_correct_witness :
    (0 + 1 ≤ 1 ∧ 0 + 1 ≤ 1 ∧ widthInUint32 1 * 1 ≤ [0].length) ∧
    (∀ x, x < 1 → ∀ y, y < 1 →
      getPixel (bitbltRef [1] 1 1 0 0 [0] 1 0 0 1 1) 1 (0 + x) (0 + y) =
        getPixel [1] 1 (0 + x) (0 + y)) ∧
    (∀ X, X < 1 → ∀ Y, Y < 1 →
      ¬(0 ≤ X ∧ X < 0 + 1 ∧ 0 ≤ Y ∧ Y < 0 + 1) →
      getPixel (bitbltRef [1] 1 1 0 0 [0] 1 0 0 1 1) 1 X Y =
        getPixel [0] 1 X Y) :=
  ⟨⟨by decide, by decide, by decide⟩,
    bitbltRef_correct [1] 1 1 0 0 [0] 1 1 0 0 1 1
      (by decide) (by decide) (by decide) (by decide) (by decide)⟩

/-- Claim C9: `getPixel` performs no bounds check and is total: when the
computed element index falls at or beyond the end of the buffer, the
read yields the absent element (`undefined`, coerced to `0` by `>>>`),
so the result is `0` rather than an error. -/
theorem getPixel_out_of_range (buffer : List Nat) (width x y : Nat)
    (hW : 1 ≤ width) (hidx : buffer.length ≤ elementIndex width x y) :
    getPixel buffer width x y = 0 := by
  rw [getPixel, List.getD_eq_getElem?_getD, List.getElem?_eq_none hidx]
  simp

/-- Witness for `getPixel_out_of_range`: reading pixel (0,0) of an
empty buffer of width 1. -/
theorem getPixel_out_of_range_witness :
    (1 ≤ 1 ∧ ([] : List Nat).length ≤ elementIndex 1 0 0) ∧ getPixel [] 1 0 0 = 0 :=
  ⟨⟨by decide, by decide⟩, getPixel_out_of_range [] 1 0 0 (by decide) (by decide)⟩

/-! ### The textual back-end's emitted routine

`JavaScriptGenerator.generate` (JavaScriptGenerator.js lines 31-132)
emits the source text of a scan loop. With the default flags
(`unrollLoops: false`, `inlineConstants: true`) and every dimension
present in `params` — which is how `JavaScriptGenerator.execute` calls
it, passing the actual call arguments — the emitted text is the plain
double loop in which `srcWidthInUint32`, `dstWidthInUint32` are the
literals `ceil(fsrcW/32)`, `ceil(fdstW/32)` and `srcXPos = fsrcX + x`,
`dstXPos = fdstX + x` use the frozen literals, while `srcY`, `dstY`,
`width`, `height` stay runtime arguments. The definitions below are
the semantics of that emitted text, with the frozen constants as
parameters `fsrcW fdstW fsrcX fdstX`. -/

/-- One pixel of the emitted inner loop (`addPixelCopyCode`,
JavaScriptGenerator.js lines 143-220, dynamic-x branch). -/
def genCopyPixel (fsrcW fdstW fsrcX fdstX : Nat) (srcBuffer : List Nat)
    (srcY dstY : Nat) (y x : Nat) (dstBuffer : List Nat) : List Nat :=
  let srcXPos := fsrcX + x
  let dstXPos := fdstX + x
  let srcYPos := srcY + y
  let dstYPos := dstY + y
  let srcElementIndex := srcXPos / 32 + srcYPos * widthInUint32 fsrcW
  let dstElementIndex := dstXPos / 32 + dstYPos * widthInUint32 fdstW
  let srcBitPos := srcXPos % 32
  let dstBitPos := dstXPos % 32
  let srcBit := (srcBuffer.getD srcElementIndex 0 >>> srcBitPos) &&& 1
  if srcBit = 1 then
    dstBuffer.set dstElementIndex (setBitWord (dstBuffer.getD dstElementIndex 0) dstBitPos)
  else
    dstBuffer.set dstElementIndex (clearBitWord (dstBuffer.getD dstElementIndex 0) dstBitPos)

/-- The emitted inner loop over `x`. -/
def genBlitRow (fsrcW fdstW fsrcX fdstX : Nat) (srcBuffer : List Nat)
    (srcY dstY : Nat) (y : Nat) : Nat → List Nat → List Nat
  | 0, dstBuffer => dstBuffer
  | width + 1, dstBuffer =>
      genCopyPixel fsrcW fdstW fsrcX fdstX srcBuffer srcY dstY y width
        (genBlitRow fsrcW fdstW fsrcX fdstX srcBuffer srcY dstY y width dstBuffer)

/-- The emitted outer loop over `y`. -/
def genBlitRows (fsrcW fdstW fsrcX fdstX : Nat) (srcBuffer : List Nat)
    (srcY dstY width : Nat) : Nat → List Nat → List Nat
  | 0, dstBuffer => dstBuffer
  | height + 1, dstBuffer =>
      genBlitRow fsrcW fdstW fsrcX fdstX srcBuffer srcY dstY height width
        (genBlitRows fsrcW fdstW fsrcX fdstX srcBuffer srcY dstY width height dstBuffer)

/-- The function compiled from the emitted text: it receives the same
eleven arguments as the reference `bitblt`; `srcWidth`, `srcHeight`,
`srcX` and `dstX` are shadowed by the inlined constants and unused. -/
def generatedBitBLT (fsrcW fdstW fsrcX fdstX : Nat) (srcBuffer : List Nat)
    (srcWidth srcHeight srcX srcY : Nat) (dstBuffer : List Nat)
    (dstWidth dstX dstY width height : Nat) : List Nat :=
  genBlitRows fsrcW fdstW fsrcX fdstX srcBuffer srcY dstY width height dstBuffer

theorem genBlitRow_eq (srcBuffer : List Nat) (srcWidth srcX srcY : Nat)
    (dstWidth dstX dstY y w : Nat) (dstBuffer : List Nat) :
    genBlitRow srcWidth dstWidth srcX dstX srcBuffer srcY dstY y w dstBuffer =
      blitRow srcBuffer srcWidth srcX srcY dstWidth dstX dstY y w dstBuffer := by
  induction w generalizing dstBuffer with
  | zero => rfl
  | succ w ih => rw [genBlitRow, blitRow, ih]; rfl

/-- When the frozen constants coincide with the actual call arguments
(the situation `JavaScriptGenerator.execute` always creates), the
compiled specialized routine computes exactly the reference `bitblt`. -/
theorem generatedBitBLT_eq_ref (srcBuffer : List Nat)
    (srcWidth srcHeight srcX srcY : Nat) (dstBuffer : List Nat)
    (dstWidth dstX dstY width height : Nat) :
    generatedBitBLT srcWidth dstWidth srcX dstX srcBuffer srcWidth srcHeight
        srcX srcY dstBuffer dstWidth dstX dstY width height =
      bitbltRef srcBuffer srcWidth srcHeight srcX srcY dstBuffer dstWidth
        dstX dstY width height := by
  rw [generatedBitBLT, bitbltRef]
  induction height generalizing dstBuffer with
  | zero => rfl
  | succ h ih => rw [genBlitRows, blitRows, ih, genBlitRow_eq]

/-- `buffersAreEqual` from `src/bitblt.js` lines 426-438: length check,
then element-by-element comparison. -/
def buffersAreEqualAux : List Nat → List Nat → Bool
  | [], _ => true
  | _ :: _, [] => false
  | a :: as, b :: bs => if a ≠ b then false else buffersAreEqualAux as bs

def buffersAreEqual (buffer1 buffer2 : List Nat) : Bool :=
  if buffer1.length ≠ buffer2.length then false
  else buffersAreEqualAux buffer1 buffer2

theorem buffersAreEqual_self (l : List Nat) : buffersAreEqual l l = true := by
  rw [buffersAreEqual, if_neg (by omega)]
  induction l with
  | nil => rfl
  | cons a as ih => rw [buffersAreEqualAux, if_neg (by omega), ih]

/-- The top-level `bitblt` entry of `src/bitblt.js` (lines 545-691)
under the default configuration (`useCompiled: true`,
`verifyResults: true`, `generatorType: "javascript"`, compiler flags
`unrollLoops: false`, `inlineConstants: true`): it copies the
destination, applies the reference implementation to the copy, applies
the specialized routine (frozen at the actual arguments) to the real
destination, and raises the verification error iff the two differ.
There is no coordinate validation anywhere on this path. -/
def bitbltEntry (srcBuffer : List Nat) (srcWidth srcHeight srcX srcY : Nat)
    (dstBuffer : List Nat) (dstWidth dstX dstY width height : Nat) :
    Except String (List Nat) :=
  let verifyBuffer :=
    bitbltRef srcBuffer srcWidth srcHeight srcX srcY dstBuffer dstWidth
      dstX dstY width height
  let result :=
    generatedBitBLT srcWidth dstWidth srcX dstX srcBuffer srcWidth srcHeight
      srcX srcY dstBuffer dstWidth dstX dstY width height
  if buffersAreEqual result verifyBuffer then Except.ok result
  else Except.error "BitBLT verification failed"

/-- Claim C7 (counterexample): a call whose copy rectangle exceeds the
source buffer (`srcX + width = 2 > 1 = srcWidth`) does not fail: the
entry returns successfully and the destination buffer has been
modified, so no `OutOfRange` error is raised before writes. -/
theorem bitbltEntry_out_of_range_writes :
    (0 + 2 > 1) ∧
    bitbltEntry [1] 1 1 0 0 [0] 32 0 0 2 1 = Except.ok [1] ∧ ([1] : List Nat) ≠ [0] := by
  refine ⟨by decide, ?_, by decide⟩
  rfl

/-- Claim C7 (amended): the operation never fails with an out-of-range
error: the entry performs no bounds checking at all, the specialized
routine and the oracle always agree (so the verification branch cannot
fire either), and every call — out-of-range rectangles included —
returns the blitted destination buffer. -/
theorem bitbltEntry_never_errors (srcBuffer : List Nat)
    (srcWidth srcHeight srcX srcY : Nat) (dstBuffer : List Nat)
    (dstWidth dstX dstY width height : Nat) :
    bitbltEntry srcBuffer srcWidth srcHeight srcX srcY dstBuffer dstWidth
        dstX dstY width height =
      Except.ok (bitbltRef srcBuffer srcWidth srcHeight srcX srcY dstBuffer
        dstWidth dstX dstY width height) := by
  rw [bitbltEntry]
  simp only [generatedBitBLT_eq_ref, buffersAreEqual_self]
  rfl

/-! ### The operation analyzer and the specialization cache of the
textual back-end -/

/-- The compilation-parameter record handed to
`JavaScriptGenerator.analyzeOperation` / `getCacheKey`: the nine
dimensions (a missing field is the JS `undefined`) and the compiler
flags. -/
structure JSParams where
  srcWidth : Option Nat
  srcHeight : Option Nat
  dstWidth : Option Nat
  srcX : Option Nat
  srcY : Option Nat
  dstX : Option Nat
  dstY : Option Nat
  width : Option Nat
  height : Option Nat
  unrollLoops : Bool
  inlineConstants : Bool
  optimizeAlignedCopy : Bool
  debug : Bool
deriving DecidableEq

/-- The record returned by `analyzeOperation` (JavaScriptGenerator.js
lines 369-397): a `canOptimize` flag and the list of optimization
tags. -/
structure AnalysisResult where
  canOptimize : Bool
  optimizations : List String
deriving DecidableEq

/-- `JavaScriptGenerator.analyzeOperation` (lines 369-397), translated
step for step. The JS function body also assigns
`params.unrollLoops = true` (line 381) and
`params.optimizeAlignedCopy = true` (line 392), mutating its argument;
the second component of the result is the state of the `params` record
after the call. -/
def analyzeOperation (params : JSParams) : AnalysisResult × JSParams :=
  match params.width, params.height with
  | some w, some h =>
      let small := w * h ≤ 64
      let analysis1 : AnalysisResult :=
        if small then { canOptimize := true, optimizations := ["unroll-loops"] }
        else { canOptimize := false, optimizations := [] }
      let params1 := if small then { params with unrollLoops := true } else params
      let aligned : Bool :=
        (w % 32 == 0) &&
          (match params.srcX with | none => true | some sx => sx % 32 == 0) &&
          (match params.dstX with | none => true | some dx => dx % 32 == 0)
      if aligned then
        ({ canOptimize := true,
           optimizations := analysis1.optimizations ++ ["word-aligned"] },
         { params1 with optimizeAlignedCopy := true })
      else (analysis1, params1)
  | _, _ => ({ canOptimize := false, optimizations := [] }, params)

/-- When is the `unroll-loops` tag merited: both `width` and `height`
frozen and the region at most 64 pixels. -/
def unrollCondition (params : JSParams) : Prop :=
  ∃ w h, params.width = some w ∧ params.height = some h ∧ w * h ≤ 64

instance (params : JSParams) : Decidable (unrollCondition params) := by
  unfold unrollCondition
  rcases params.width with _ | w <;> rcases params.height with _ | h
  · exact .isFalse (by simp)
  · exact .isFalse (by simp)
  · exact .isFalse (by simp)
  · by_cases hwh : w * h ≤ 64
    · exact .isTrue ⟨w, h, rfl, rfl, hwh⟩
    · exact .isFalse (by simpa using hwh)

/-- Claim C8 (counterexample): `analyzeOperation` does not leave the
`params` record unchanged: with `width = height = 4` (region of 16
pixels) it writes `params.unrollLoops = true`, so the record after the
call differs from the record before it. -/
theorem analyzeOperation_mutates_params :
    (analyzeOperation
        { srcWidth := none, srcHeight := none, dstWidth := none,
          srcX := none, srcY := none, dstX := none, dstY := none,
          width := some 4, height := some 4,
          unrollLoops := false, inlineConstants := true,
          optimizeAlignedCopy := true, debug := false }).2 ≠
      { srcWidth := none, srcHeight := none, dstWidth := none,
        srcX := none, srcY := none, dstX := none, dstY := none,
        width := some 4, height := some 4,
        unrollLoops := false, inlineConstants := true,
        optimizeAlignedCopy := true, debug := false } := by
  decide

/-- Claim C8 (amended): the analyzer is a deterministic function of the
`params` record, its first component is flags only, and the
`unroll-loops` tag is present exactly when both `width` and `height`
are frozen with `width * height ≤ 64`; however, the analyzer also
writes the `unrollLoops` flag of the `params` record it was given
whenever that same condition holds (and `optimizeAlignedCopy` under the
word-aligned condition), so the record is not left unchanged. -/
theorem analyzeOperation_spec (params : JSParams) :
    ("unroll-loops" ∈ (analyzeOperation params).1.optimizations ↔
      unrollCondition params) ∧
    ((analyzeOperation params).2.unrollLoops =
      (params.unrollLoops || decide (unrollCondition params))) := by
  obtain ⟨sw, sh, dw, sx, sy, dx, dy, pw, ph, ul, ic, oa, dbg⟩ := params
  rcases pw with _ | w <;> rcases ph with _ | h
  · simp [analyzeOperation, unrollCondition]
  · simp [analyzeOperation, unrollCondition]
  · simp [analyzeOperation, unrollCondition]
  · by_cases hsmall : w * h ≤ 64 <;>
      cases haligned : ((w % 32 == 0) &&
        (match sx with | none => true | some v => v % 32 == 0) &&
        (match dx with | none => true | some v => v % 32 == 0)) <;>
      simp [analyzeOperation, unrollCondition, hsmall, haligned]

/-! ### The specialization cache -/

/-- `JavaScriptGenerator.getCacheKey` (lines 340-361): the canonical
fingerprint string, `js_`-prefixed, with a short tag plus the value for
each frozen dimension in fixed order, then the flag tags. -/
def keyPart (tag : String) (v : Option Nat) : List String :=
  match v with
  | some n => [tag ++ toString n]
  | none => []

def getCacheKey (params : JSParams) : String :=
  let keyParts :=
    keyPart "sw" params.srcWidth ++ keyPart "sh" params.srcHeight ++
    keyPart "dw" params.dstWidth ++ keyPart "sx" params.srcX ++
    keyPart "sy" params.srcY ++ keyPart "dx" params.dstX ++
    keyPart "dy" params.dstY ++ keyPart "w" params.width ++
    keyPart "h" params.height ++
    (if params.unrollLoops then ["ul"] else []) ++
    (if params.inlineConstants then ["ic"] else []) ++
    (if params.optimizeAlignedCopy then ["oa"] else [])
  "js_" ++ String.intercalate "_" keyParts

/-- The observable compilation state of one `JavaScriptGenerator`
instance: the keys present in its `compiledFunctions` map and how many
times `generate` has run (the instrumentation the claim describes). -/
structure JSGeneratorState where
  compiledKeys : List String
  generateCalls : Nat
deriving DecidableEq

/-- A freshly constructed `JavaScriptGenerator`: empty cache. -/
def freshGenerator : JSGeneratorState :=
  { compiledKeys := [], generateCalls := 0 }

/-- `JavaScriptGenerator.compile` (lines 228-259): cache hit returns
the stored artifact; a miss runs `generate` and stores the result
under the fingerprint. -/
def jsCompile (g : JSGeneratorState) (params : JSParams) : JSGeneratorState :=
  let cacheKey := getCacheKey params
  if cacheKey ∈ g.compiledKeys then g
  else { compiledKeys := cacheKey :: g.compiledKeys,
         generateCalls := g.generateCalls + 1 }

/-- One top-level `bitblt` call (src/bitblt.js lines 545-691) with
default options: no `options.generator` is supplied, so line 582-587
constructs a **new** `JavaScriptGenerator` for this call (the
module-level `defaultGenerator` of line 398 is never consulted), and
`execute` compiles against that fresh instance's empty cache. -/
def topLevelCall (params : JSParams) : JSGeneratorState :=
  jsCompile freshGenerator params

/-- Total number of `generate` runs over a sequence of `n` top-level
calls with identical parameters and no intervening `clearCache`. -/
def topLevelGenerateCalls (params : JSParams) : Nat → Nat
  | 0 => 0
  | n + 1 => topLevelGenerateCalls params n + (topLevelCall params).generateCalls

/-- Within one generator instance the cache does work: compiling the
same parameters again never reruns `generate`. -/
theorem jsCompile_idempotent (g : JSGeneratorState) (params : JSParams) :
    jsCompile (jsCompile g params) params = jsCompile g params := by
  unfold jsCompile
  by_cases h : getCacheKey params ∈ g.compiledKeys <;> simp [h]

/-- Claim C6 (evaluation at the failing input): two top-level `bitblt`
calls with identical parameters trigger `generate` twice, not once —
each call builds a fresh generator whose cache is empty, so the second
call cannot reuse the first call's artifact. -/
theorem topLevel_generates_twice :
    topLevelGenerateCalls
      { srcWidth := some 8, srcHeight := some 8, dstWidth := some 8,
        srcX := some 0, srcY := some 0, dstX := some 0, dstY := some 0,
        width := some 8, height := some 8,
        unrollLoops := false, inlineConstants := true,
        optimizeAlignedCopy := true, debug := false } 2 = 2 ∧ (2 : Nat) ≠ 1 := by
  constructor
  · rfl
  · decide

/-! ### LEB128 encoders (`wasm-binary-utils.js`) -/

theorem shiftRight7_eq (n : Nat) : n >>> 7 = n / 128 := by
  rw [Nat.shiftRight_eq_div_pow]

theorem and127_eq_mod (n : Nat) : n &&& 127 = n % 128 := by
  have h127 : (127 : Nat) = 2 ^ 7 - 1 := by norm_num
  have h128 : (128 : Nat) = 2 ^ 7 := by norm_num
  apply Nat.eq_of_testBit_eq
  intro i
  rw [h127, h128, Nat.testBit_and, Nat.testBit_two_pow_sub_one, Nat.testBit_mod_two_pow]
  exact Bool.and_comm _ _

theorem and64_iff : ∀ a : Nat, a < 128 → ((a &&& 64 = 0) ↔ a < 64) := by decide

theorem or128_eq : ∀ a : Nat, a < 128 → a ||| 128 = a + 128 := by decide

theorem add128_and127 : ∀ a : Nat, a < 128 → (a + 128) &&& 127 = a := by decide

/-- `encodeULEB128` from `wasm-binary-utils.js` lines 115-127. The JS
do-while loop computes `byte = value & 0x7f`, then `value >>>= 7`
(unsigned shift), sets the continuation bit when the shifted value is
nonzero, and repeats on the shifted value. For a nonnegative `value`
the shift is plain division by `2^7`. -/
def encodeULEB128 (value : Nat) : List Nat :=
  let byte := value &&& 0x7f
  if h : value >>> 7 = 0 then [byte]
  else (byte ||| 0x80) :: encodeULEB128 (value >>> 7)
termination_by value
decreasing_by
  rw [shiftRight7_eq] at h
  rw [shiftRight7_eq]
  omega

/-- The standard unsigned LEB128 decoder on a complete byte sequence:
7 data bits per byte, least significant group first, the final byte and
only the final byte has the continuation bit clear. -/
def decodeULEB128 : List Nat → Option Nat
  | [] => none
  | b :: rest =>
      match rest with
      | [] => if b < 0x80 then some b else none
      | _ :: _ =>
          if 0x80 ≤ b then (decodeULEB128 rest).map (fun v => (b &&& 0x7f) + 128 * v)
          else none

theorem encodeULEB128_ne_nil (n : Nat) : encodeULEB128 n ≠ [] := by
  rw [encodeULEB128]
  split <;> simp

theorem decode_encodeULEB128 (n : Nat) : decodeULEB128 (encodeULEB128 n) = some n := by
  induction n using Nat.strong_induction_on with
  | _ n ih =>
    rw [encodeULEB128]
    by_cases h : n >>> 7 = 0
    · rw [dif_pos h]
      rw [shiftRight7_eq] at h
      have hn : n < 128 := by omega
      have hb : n &&& 127 = n := by rw [and127_eq_mod]; omega
      simp [decodeULEB128, hb, hn]
    · rw [dif_neg h]
      rw [shiftRight7_eq] at h ⊢
      have hrec : decodeULEB128 (encodeULEB128 (n / 128)) = some (n / 128) :=
        ih _ (by omega)
      rcases hrest : encodeULEB128 (n / 128) with _ | ⟨b, bs⟩
      · exact absurd hrest (encodeULEB128_ne_nil _)
      · rw [hrest] at hrec
        have hmod : n &&& 127 = n % 128 := and127_eq_mod n
        have hlt : n % 128 < 128 := by omega
        have hor : (n &&& 127) ||| 128 = n % 128 + 128 := by
          rw [hmod]; exact or128_eq _ hlt
        have hsplit : decodeULEB128 ((n &&& 127 ||| 128) :: b :: bs) =
            if 0x80 ≤ (n &&& 127 ||| 128) then
              (decodeULEB128 (b :: bs)).map
                (fun v => ((n &&& 127 ||| 128) &&& 0x7f) + 128 * v)
            else none := rfl
        rw [hsplit, if_pos (by rw [hor]; omega), hrec]
        simp only [Option.map_some']
        have hand : (n % 128 + 128) &&& 127 = n % 128 := add128_and127 _ hlt
        rw [hor, hand]
        congr 1
        omega

theorem encodeULEB128_length_le (n k : Nat) (hk : 1 ≤ k) (h : n < 128 ^ k) :
    (encodeULEB128 n).length ≤ k := by
  induction n using Nat.strong_induction_on generalizing k with
  | _ n ih =>
    rw [encodeULEB128]
    by_cases h0 : n >>> 7 = 0
    · rw [dif_pos h0]
      simp only [List.length_cons, List.length_nil]
      omega
    · rw [dif_neg h0]
      rw [shiftRight7_eq] at h0
      have hn : 128 ≤ n := by omega
      have hk2 : 2 ≤ k := by
        by_contra hc
        have hk1 : k = 1 := by omega
        rw [hk1] at h
        simp at h
        omega
      obtain ⟨k2, rfl⟩ : ∃ k2, k = k2 + 2 := ⟨k - 2, by omega⟩
      have hq : n / 128 < 128 ^ (k2 + 1) := by
        have hp : (128 : Nat) ^ (k2 + 2) = 128 ^ (k2 + 1) * 128 := pow_succ 128 (k2 + 1)
        rw [Nat.div_lt_iff_lt_mul (by omega)]
        omega
      have := ih (n / 128) (by omega) (k2 + 1) (by omega) hq
      rw [shiftRight7_eq]
      simpa using this

theorem decodeULEB128_lt (bs : List Nat) (n : Nat) (h : decodeULEB128 bs = some n) :
    n < 128 ^ bs.length := by
  induction bs generalizing n with
  | nil => simp [decodeULEB128] at h
  | cons b rest ih =>
      rcases rest with _ | ⟨c, cs⟩
      · simp only [decodeULEB128] at h
        split at h
        · simp at h
          simpa [← h] using by omega
        · simp at h
      · have hsplit : decodeULEB128 (b :: c :: cs) =
            if 0x80 ≤ b then
              (decodeULEB128 (c :: cs)).map (fun v => (b &&& 0x7f) + 128 * v)
            else none := rfl
        rw [hsplit] at h
        split at h
        · rcases hd : decodeULEB128 (c :: cs) with _ | v
          · rw [hd] at h; simp at h
          · rw [hd] at h
            simp at h
            have hv := ih v hd
            have hb : b &&& 127 < 128 := by rw [and127_eq_mod]; omega
            have hp : (128 : Nat) ^ (c :: cs).length * 128 = 128 ^ (b :: c :: cs).length := by
              rw [List.length_cons]
              exact (pow_succ 128 _).symm
            have : (b &&& 127) + 128 * v < 128 ^ (c :: cs).length * 128 := by
              have h128 : 128 * (v + 1) ≤ 128 * 128 ^ (c :: cs).length :=
                Nat.mul_le_mul_left _ (by omega)
              omega
            omega
        · simp at h

theorem encodeULEB128_minimal (bs : List Nat) (n : Nat)
    (h : decodeULEB128 bs = some n) : (encodeULEB128 n).length ≤ bs.length := by
  have h1 := decodeULEB128_lt bs n h
  have hk : 1 ≤ bs.length := by
    rcases bs with _ | ⟨b, rest⟩
    · simp [decodeULEB128] at h
    · simp
  exact encodeULEB128_length_le n bs.length hk h1

/-- The loop variable of `encodeSLEB128` strictly shrinks in absolute
value whenever the stop condition does not hold. -/
theorem sleb_natAbs_div_lt (value : Int)
    (h : ¬ ((value / 128 = 0 ∧ (value % 128).toNat &&& 0x40 = 0) ∨
            (value / 128 = -1 ∧ (value % 128).toNat &&& 0x40 ≠ 0))) :
    (value / 128).natAbs < value.natAbs := by
  have hr0 : (0 : Int) ≤ value % 128 := Int.emod_nonneg value (by norm_num)
  have hr1 : value % 128 < 128 := Int.emod_lt_of_pos value (by norm_num)
  have hv := Int.ediv_add_emod value 128
  have hb : (value % 128).toNat < 128 := by omega
  have h64 := and64_iff _ hb
  by_cases hb64 : (value % 128).toNat &&& 64 = 0
  · have h1 : ¬(value / 128 = 0) := fun hc => h (Or.inl ⟨hc, hb64⟩)
    have h2 : (value % 128).toNat < 64 := h64.mp hb64
    omega
  · have h1 : ¬(value / 128 = -1) := fun hc => h (Or.inr ⟨hc, hb64⟩)
    have h2 : ¬((value % 128).toNat < 64) := fun hc => hb64 (h64.mpr hc)
    omega

/-- `encodeSLEB128` from `wasm-binary-utils.js` lines 134-156. The JS
loop computes `byte = value & 0x7f` — on the two's-complement image
this is the nonnegative value `value mod 128`, written here with Lean's
Euclidean `%` — and `value >>= 7`, the arithmetic shift, which is the
floor division `value / 128` (Lean's `/` on `Int` with a positive
divisor). The loop stops when the shifted value is `0` with the sign
bit (0x40) of the byte clear, or `-1` with it set; otherwise the byte
gets the continuation bit. -/
def encodeSLEB128 (value : Int) : List Nat :=
  if h : (value / 128 = 0 ∧ (value % 128).toNat &&& 0x40 = 0) ∨
      (value / 128 = -1 ∧ (value % 128).toNat &&& 0x40 ≠ 0) then
    [(value % 128).toNat]
  else ((value % 128).toNat ||| 0x80) :: encodeSLEB128 (value / 128)
termination_by value.natAbs
decreasing_by
  exact sleb_natAbs_div_lt value h

/-- The standard signed LEB128 decoder on a complete byte sequence:
7 data bits per byte, least significant group first, the final byte
carries the sign in bit 0x40. -/
def decodeSLEB128 : List Nat → Option Int
  | [] => none
  | b :: rest =>
      match rest with
      | [] =>
          if b < 0x80 then
            some (if b &&& 0x40 ≠ 0 then (b : Int) - 128 else (b : Int))
          else none
      | _ :: _ =>
          if 0x80 ≤ b then
            (decodeSLEB128 rest).map (fun v => ((b &&& 0x7f : Nat) : Int) + 128 * v)
          else none

theorem encodeSLEB128_ne_nil (v : Int) : encodeSLEB128 v ≠ [] := by
  rw [encodeSLEB128]
  split <;> simp

theorem decode_encodeSLEB128 (v : Int) : decodeSLEB128 (encodeSLEB128 v) = some v := by
  suffices H : ∀ n : Nat, ∀ w : Int, w.natAbs = n →
      decodeSLEB128 (encodeSLEB128 w) = some w from H v.natAbs v rfl
  intro n
  induction n using Nat.strong_induction_on with
  | _ n ih =>
    intro w hw
    have hr0 : (0 : Int) ≤ w % 128 := Int.emod_nonneg w (by norm_num)
    have hr1 : w % 128 < 128 := Int.emod_lt_of_pos w (by norm_num)
    have hv := Int.ediv_add_emod w 128
    have hb : (w % 128).toNat < 128 := by omega
    rw [encodeSLEB128]
    by_cases h : (w / 128 = 0 ∧ (w % 128).toNat &&& 0x40 = 0) ∨
        (w / 128 = -1 ∧ (w % 128).toNat &&& 0x40 ≠ 0)
    · rw [dif_pos h]
      have hsplit : decodeSLEB128 [(w % 128).toNat] =
          if (w % 128).toNat < 0x80 then
            some (if (w % 128).toNat &&& 0x40 ≠ 0 then ((w % 128).toNat : Int) - 128
              else ((w % 128).toNat : Int))
          else none := rfl
      rw [hsplit, if_pos hb]
      rcases h with ⟨hq, hb64⟩ | ⟨hq, hb64⟩
      · rw [if_neg (by simp [hb64])]
        congr 1
        omega
      · rw [if_pos hb64]
        congr 1
        omega
    · rw [dif_neg h]
      have hdec := sleb_natAbs_div_lt w h
      have hrec : decodeSLEB128 (encodeSLEB128 (w / 128)) = some (w / 128) :=
        ih (w / 128).natAbs (by omega) _ rfl
      rcases hrest : encodeSLEB128 (w / 128) with _ | ⟨b, bs⟩
      · exact absurd hrest (encodeSLEB128_ne_nil _)
      · rw [hrest] at hrec
        have hor : (w % 128).toNat ||| 128 = (w % 128).toNat + 128 := or128_eq _ hb
        have hsplit : decodeSLEB128 (((w % 128).toNat ||| 0x80) :: b :: bs) =
            if 0x80 ≤ (w % 128).toNat ||| 0x80 then
              (decodeSLEB128 (b :: bs)).map
                (fun u => ((((w % 128).toNat ||| 0x80) &&& 0x7f : Nat) : Int) + 128 * u)
            else none := rfl
        rw [hsplit, if_pos (by rw [hor]; omega), hrec]
        simp only [Option.map_some']
        have hand : ((w % 128).toNat + 128) &&& 127 = (w % 128).toNat := add128_and127 _ hb
        rw [hor, hand]
        congr 1
        omega

theorem decodeSLEB128_bounds (bs : List Nat) (v : Int)
    (h : decodeSLEB128 bs = some v) :
    -(64 * 128 ^ (bs.length - 1)) ≤ v ∧ v < 64 * 128 ^ (bs.length - 1) := by
  induction bs generalizing v with
  | nil => simp [decodeSLEB128] at h
  | cons b rest ih =>
      rcases rest with _ | ⟨c, cs⟩
      · have hsplit : decodeSLEB128 [b] =
            if b < 0x80 then
              some (if b &&& 0x40 ≠ 0 then (b : Int) - 128 else (b : Int))
            else none := rfl
        rw [hsplit] at h
        split at h
        · rename_i hblt
          have h64 := and64_iff b hblt
          simp only [Option.some_inj] at h
          subst h
          by_cases hb64 : b &&& 64 = 0
          · rw [if_neg (by simp [hb64])]
            have := h64.mp hb64
            simp only [List.length_cons, List.length_nil]
            constructor <;> [omega; (norm_num; omega)]
          · rw [if_pos hb64]
            have := fun hc => hb64 (h64.mpr hc)
            simp only [List.length_cons, List.length_nil]
            constructor <;> [(norm_num; omega); omega]
        · simp at h
      · have hsplit : decodeSLEB128 (b :: c :: cs) =
            if 0x80 ≤ b then
              (decodeSLEB128 (c :: cs)).map (fun u => ((b &&& 0x7f : Nat) : Int) + 128 * u)
            else none := rfl
        rw [hsplit] at h
        split at h
        · rcases hd : decodeSLEB128 (c :: cs) with _ | u
          · rw [hd] at h; simp at h
          · rw [hd] at h
            simp only [Option.map_some', Option.some_inj] at h
            subst h
            obtain ⟨hlo, hhi⟩ := ih u hd
            have hblow : b &&& 127 < 128 := by rw [and127_eq_mod]; omega
            have hlen : (c :: cs).length - 1 + 1 = (b :: c :: cs).length - 1 := by
              simp
            have hp : (128 : Int) ^ ((c :: cs).length - 1 + 1) =
                128 ^ ((c :: cs).length - 1) * 128 := pow_succ 128 _
            rw [← hlen]
            constructor
            · have : ((b &&& 127 : Nat) : Int) ≥ 0 := by positivity
              rw [hp]
              omega
            · rw [hp]
              have hcast : ((b &&& 127 : Nat) : Int) < 128 := by exact_mod_cast hblow
              omega
        · simp at h

theorem encodeSLEB128_length_le (k : Nat) (hk : 1 ≤ k) :
    ∀ v : Int, -(64 * 128 ^ (k - 1)) ≤ v → v < 64 * 128 ^ (k - 1) →
      (encodeSLEB128 v).length ≤ k := by
  induction k using Nat.strong_induction_on with
  | _ k ih =>
    intro v hlo hhi
    have hr0 : (0 : Int) ≤ v % 128 := Int.emod_nonneg v (by norm_num)
    have hr1 : v % 128 < 128 := Int.emod_lt_of_pos v (by norm_num)
    have hv := Int.ediv_add_emod v 128
    have hb : (v % 128).toNat < 128 := by omega
    have h64 := and64_iff _ hb
    rw [encodeSLEB128]
    by_cases h : (v / 128 = 0 ∧ (v % 128).toNat &&& 0x40 = 0) ∨
        (v / 128 = -1 ∧ (v % 128).toNat &&& 0x40 ≠ 0)
    · rw [dif_pos h]
      simp only [List.length_cons, List.length_nil]
      omega
    · rw [dif_neg h]
      have hk2 : 2 ≤ k := by
        by_contra hc
        have hk1 : k = 1 := by omega
        subst hk1
        norm_num at hlo hhi
        apply h
        by_cases hvpos : 0 ≤ v
        · left
          have hq : v / 128 = 0 := by omega
          have hr : v % 128 = v := by omega
          refine ⟨hq, ?_⟩
          apply h64.mpr
          omega
        · right
          have hq : v / 128 = -1 := by omega
          have hr : v % 128 = v + 128 := by omega
          refine ⟨hq, ?_⟩
          intro hzero
          have := h64.mp hzero
          omega
      obtain ⟨k2, rfl⟩ : ∃ k2, k = k2 + 2 := ⟨k - 2, by omega⟩
      have hp : (128 : Int) ^ (k2 + 2 - 1) = 128 ^ k2 * 128 := pow_succ 128 _
      have hq1 : v / 128 < 64 * 128 ^ (k2 + 1 - 1) := by
        simp only [Nat.add_sub_cancel] at *
        rw [hp] at hhi
        omega
      have hq0 : -(64 * 128 ^ (k2 + 1 - 1)) ≤ v / 128 := by
        simp only [Nat.add_sub_cancel] at *
        rw [hp] at hlo
        omega
      have := ih (k2 + 1) (by omega) (by omega) (v / 128) hq0 hq1
      simp only [List.length_cons]
      omega

theorem encodeSLEB128_minimal (bs : List Nat) (v : Int)
    (h : decodeSLEB128 bs = some v) : (encodeSLEB128 v).length ≤ bs.length := by
  obtain ⟨hlo, hhi⟩ := decodeSLEB128_bounds bs v h
  have hk : 1 ≤ bs.length := by
    rcases bs with _ | ⟨b, rest⟩
    · simp [decodeSLEB128] at h
    · simp
  exact encodeSLEB128_length_le bs.length hk v hlo hhi

/-- Claim C5: both LEB128 encoders of the bytecode primitive writers
round-trip through the standard decoder, and the byte sequences they
produce are canonical: no encoding of the same integer is shorter (so
there are no redundant continuation bytes). The unsigned statement
holds for every nonnegative integer and the signed statement for every
integer, which covers in particular the 32-bit ranges named by the
spec. -/
theorem leb128_roundtrip_canonical :
    (∀ n : Nat, decodeULEB128 (encodeULEB128 n) = some n) ∧
    (∀ (bs : List Nat) (n : Nat), decodeULEB128 bs = some n →
      (encodeULEB128 n).length ≤ bs.length) ∧
    (∀ v : Int, decodeSLEB128 (encodeSLEB128 v) = some v) ∧
    (∀ (bs : List Nat) (v : Int), decodeSLEB128 bs = some v →
      (encodeSLEB128 v).length ≤ bs.length) :=
  ⟨decode_encodeULEB128, fun bs n h => encodeULEB128_minimal bs n h,
    decode_encodeSLEB128, fun bs v h => encodeSLEB128_minimal bs v h⟩

/-- Witness for `leb128_roundtrip_canonical`: concrete instances; the
minimality parts are applied to the actual encodings of 300 and
-123456, whose decodings are discharged by computation. -/
theorem leb128_roundtrip_canonical_witness :
    decodeULEB128 (encodeULEB128 300) = some 300 ∧
    (encodeULEB128 300).length ≤ ([172, 2] : List Nat).length ∧
    decodeSLEB128 (encodeSLEB128 (-123456)) = some (-123456) ∧
    (encodeSLEB128 (-123456)).length ≤ ([192, 187, 120] : List Nat).length :=
  ⟨leb128_roundtrip_canonical.1 300,
   leb128_roundtrip_canonical.2.1 [172, 2] 300 (by decide),
   leb128_roundtrip_canonical.2.2.1 (-123456),
   leb128_roundtrip_canonical.2.2.2 [192, 187, 120] (-123456) (by decide)⟩

/-! ### `encodeULEB128` on arbitrary (possibly negative) JS numbers -/

/-- ECMAScript `ToUint32`: the 32-bit image of an integer. -/
def toUint32 (v : Int) : Nat := (v % (2 ^ 32 : Int)).toNat

/-- `encodeULEB128` as invoked on an arbitrary integer JS number: in the
first loop iteration `value & 0x7f` reads the low 7 bits of the
two's-complement image of `value`, and `value >>>= 7` replaces `value`
by `ToUint32(value) >> 7`; from then on the loop variable is a plain
nonnegative integer below `2^32` and the remaining iterations are those
of `encodeULEB128`. -/
def encodeULEB128FromInt (value : Int) : List Nat :=
  if toUint32 value >>> 7 = 0 then [toUint32 value &&& 0x7f]
  else ((toUint32 value &&& 0x7f) ||| 0x80) :: encodeULEB128 (toUint32 value >>> 7)

/-- Claim C10: on any integer argument, including negative ones,
`encodeULEB128` terminates and produces exactly the unsigned LEB128
encoding of `n mod 2^32` — at most 5 bytes, decoding back to
`n mod 2^32`. -/
theorem encodeULEB128_int_spec (v : Int) :
    encodeULEB128FromInt v = encodeULEB128 (toUint32 v) ∧
    (encodeULEB128FromInt v).length ≤ 5 ∧
    decodeULEB128 (encodeULEB128FromInt v) = some (toUint32 v) := by
  have he : encodeULEB128FromInt v = encodeULEB128 (toUint32 v) := by
    by_cases h : toUint32 v >>> 7 = 0
    · rw [encodeULEB128FromInt, if_pos h]
      conv_rhs => rw [encodeULEB128]
      rw [dif_pos h]
    · rw [encodeULEB128FromInt, if_neg h]
      conv_rhs => rw [encodeULEB128]
      rw [dif_neg h]
  refine ⟨he, ?_, ?_⟩
  · rw [he]
    have hlt : toUint32 v < 2 ^ 32 := by
      have h1 : (0 : Int) ≤ v % (2 ^ 32 : Int) := Int.emod_nonneg v (by norm_num)
      have h2 : v % (2 ^ 32 : Int) < 2 ^ 32 := Int.emod_lt_of_pos v (by norm_num)
      unfold toUint32
      omega
    exact encodeULEB128_length_le _ 5 (by omega) (by norm_num; omega)
  · rw [he]
    exact decode_encodeULEB128 _

/-! ### The binary back-end's function body
(`wasm-bitblt-generator.js`, `generateBitBLTFunctionBody`, lines
209-468)

Opcode and value-type constants from `wasm-binary-utils.js`. -/

namespace Opcodes

def BLOCK : Nat := 0x02
def LOOP : Nat := 0x03
def IF : Nat := 0x04
def ELSE : Nat := 0x05
def END : Nat := 0x0b
def BR : Nat := 0x0c
def BR_IF : Nat := 0x0d
def LOCAL_GET : Nat := 0x20
def LOCAL_SET : Nat := 0x21
def LOCAL_TEE : Nat := 0x22
def I32_LOAD : Nat := 0x28
def I32_STORE : Nat := 0x36
def I32_CONST : Nat := 0x41
def I32_EQZ : Nat := 0x45
def I32_EQ : Nat := 0x46
def I32_LT_S : Nat := 0x48
def I32_ADD : Nat := 0x6a
def I32_MUL : Nat := 0x6c
def I32_AND : Nat := 0x71
def I32_OR : Nat := 0x72
def I32_XOR : Nat := 0x73
def I32_SHL : Nat := 0x74
def I32_SHR_U : Nat := 0x76

end Opcodes

/-- `ValueType.I32` from `wasm-binary-utils.js`. -/
def valueTypeI32 : Nat := 0x7f

/-- The byte stream built by `generateBitBLTFunctionBody`
(`wasm-bitblt-generator.js` lines 209-468), transcribed push for push:
the local-declaration header (9 groups of one i32), then the opcode
stream. The JS function takes an `options` argument that it never
reads, so the output is one fixed byte sequence. Parameter slots are
0-10 = (srcBuffer, srcWidth, srcHeight, srcX, srcY, dstBuffer,
dstWidth, dstX, dstY, width, height); locals 11-19 are declared here.
`BR`/`BR_IF` label immediates are pushed as the raw bytes 0x00/0x01,
which coincide with their ULEB128 encodings. -/
def generateBitBLTFunctionBody : List Nat :=
  -- localCount and localTypes (lines 211-233)
  encodeULEB128 9 ++
  (encodeULEB128 1 ++ [valueTypeI32]) ++ (encodeULEB128 1 ++ [valueTypeI32]) ++
  (encodeULEB128 1 ++ [valueTypeI32]) ++ (encodeULEB128 1 ++ [valueTypeI32]) ++
  (encodeULEB128 1 ++ [valueTypeI32]) ++ (encodeULEB128 1 ++ [valueTypeI32]) ++
  (encodeULEB128 1 ++ [valueTypeI32]) ++ (encodeULEB128 1 ++ [valueTypeI32]) ++
  (encodeULEB128 1 ++ [valueTypeI32]) ++
  -- srcWidthInUint32 = (srcWidth + 31) >> 5 (lines 240-245)
  ([Opcodes.LOCAL_GET] ++ encodeULEB128 1) ++
  ([Opcodes.I32_CONST] ++ encodeSLEB128 31) ++
  [Opcodes.I32_ADD] ++
  ([Opcodes.I32_CONST] ++ encodeSLEB128 5) ++
  [Opcodes.I32_SHR_U] ++
  ([Opcodes.LOCAL_SET] ++ encodeULEB128 11) ++
  -- dstWidthInUint32 = (dstWidth + 31) >> 5 (lines 249-254)
  ([Opcodes.LOCAL_GET] ++ encodeULEB128 6) ++
  ([Opcodes.I32_CONST] ++ encodeSLEB128 31) ++
  [Opcodes.I32_ADD] ++
  ([Opcodes.I32_CONST] ++ encodeSLEB128 5) ++
  [Opcodes.I32_SHR_U] ++
  ([Opcodes.LOCAL_SET] ++ encodeULEB128 12) ++
  -- y = 0 (lines 258-259)
  ([Opcodes.I32_CONST] ++ encodeSLEB128 0) ++
  ([Opcodes.LOCAL_SET] ++ encodeULEB128 13) ++
  -- outer block/loop (lines 262-263)
  [Opcodes.BLOCK, 0x40] ++
  [Opcodes.LOOP, 0x40] ++
  -- y < height guard (lines 266-272)
  ([Opcodes.LOCAL_GET] ++ encodeULEB128 13) ++
  ([Opcodes.LOCAL_GET] ++ encodeULEB128 10) ++
  [Opcodes.I32_LT_S] ++
  [Opcodes.I32_EQZ] ++
  [Opcodes.BR_IF, 0x01] ++
  -- srcYPos = srcY + y (lines 275-278)
  ([Opcodes.LOCAL_GET] ++ encodeULEB128 4) ++
  ([Opcodes.LOCAL_GET] ++ encodeULEB128 13) ++
  [Opcodes.I32_ADD] ++
  ([Opcodes.LOCAL_SET] ++ encodeULEB128 14) ++
  -- dstYPos = dstY + y (lines 281-284)
  ([Opcodes.LOCAL_GET] ++ encodeULEB128 8) ++
  ([Opcodes.LOCAL_GET] ++ encodeULEB128 13) ++
  [Opcodes.I32_ADD] ++
  ([Opcodes.LOCAL_SET] ++ encodeULEB128 15) ++
  -- x = 0 (lines 288-289)
  ([Opcodes.I32_CONST] ++ encodeSLEB128 0) ++
  ([Opcodes.LOCAL_SET] ++ encodeULEB128 16) ++
  -- inner block/loop (lines 292-293)
  [Opcodes.BLOCK, 0x40] ++
  [Opcodes.LOOP, 0x40] ++
  -- x < width guard (lines 296-302)
  ([Opcodes.LOCAL_GET] ++ encodeULEB128 16) ++
  ([Opcodes.LOCAL_GET] ++ encodeULEB128 9) ++
  [Opcodes.I32_LT_S] ++
  [Opcodes.I32_EQZ] ++
  [Opcodes.BR_IF, 0x01] ++
  -- srcXPos = srcX + x (lines 305-307)
  ([Opcodes.LOCAL_GET] ++ encodeULEB128 3) ++
  ([Opcodes.LOCAL_GET] ++ encodeULEB128 16) ++
  [Opcodes.I32_ADD] ++
  -- srcXPos >> 5 (lines 311-312)
  ([Opcodes.I32_CONST] ++ encodeSLEB128 5) ++
  [Opcodes.I32_SHR_U] ++
  -- + srcYPos * srcWidthInUint32 (lines 315-318)
  ([Opcodes.LOCAL_GET] ++ encodeULEB128 14) ++
  ([Opcodes.LOCAL_GET] ++ encodeULEB128 11) ++
  [Opcodes.I32_MUL] ++
  [Opcodes.I32_ADD] ++
  -- + srcBuffer (lines 321-322): note, no scaling by 4 here
  ([Opcodes.LOCAL_GET] ++ encodeULEB128 0) ++
  [Opcodes.I32_ADD] ++
  -- srcBitPos = (srcX + x) & 31 (lines 325-329)
  ([Opcodes.LOCAL_GET] ++ encodeULEB128 3) ++
  ([Opcodes.LOCAL_GET] ++ encodeULEB128 16) ++
  [Opcodes.I32_ADD] ++
  ([Opcodes.I32_CONST] ++ encodeSLEB128 31) ++
  [Opcodes.I32_AND] ++
  -- i32.load (line 332): the address operand on top of the stack at
  -- this point is srcBitPos
  [Opcodes.I32_LOAD, 0x02, 0x00] ++
  -- >>> then & 1 (lines 336-340)
  [Opcodes.I32_SHR_U] ++
  ([Opcodes.I32_CONST] ++ encodeSLEB128 1) ++
  [Opcodes.I32_AND] ++
  -- srcBit (line 343)
  ([Opcodes.LOCAL_SET] ++ encodeULEB128 17) ++
  -- dstXPos = dstX + x (lines 346-348)
  ([Opcodes.LOCAL_GET] ++ encodeULEB128 7) ++
  ([Opcodes.LOCAL_GET] ++ encodeULEB128 16) ++
  [Opcodes.I32_ADD] ++
  -- dstXPos >> 5 (lines 352-353)
  ([Opcodes.I32_CONST] ++ encodeSLEB128 5) ++
  [Opcodes.I32_SHR_U] ++
  -- + dstYPos * dstWidthInUint32 (lines 356-359)
  ([Opcodes.LOCAL_GET] ++ encodeULEB128 15) ++
  ([Opcodes.LOCAL_GET] ++ encodeULEB128 12) ++
  [Opcodes.I32_MUL] ++
  [Opcodes.I32_ADD] ++
  -- + dstBuffer (lines 362-363)
  ([Opcodes.LOCAL_GET] ++ encodeULEB128 5) ++
  [Opcodes.I32_ADD] ++
  -- dstBitPos = (dstX + x) & 31 (lines 366-370)
  ([Opcodes.LOCAL_GET] ++ encodeULEB128 7) ++
  ([Opcodes.LOCAL_GET] ++ encodeULEB128 16) ++
  [Opcodes.I32_ADD] ++
  ([Opcodes.I32_CONST] ++ encodeSLEB128 31) ++
  [Opcodes.I32_AND] ++
  -- local.tee dstBitPos (line 373)
  ([Opcodes.LOCAL_TEE] ++ encodeULEB128 18) ++
  -- dst word byte address = ((dstXPos >> 5) + dstYPos*stride) * 4 + dstBuffer
  -- (lines 376-388)
  ([Opcodes.LOCAL_GET] ++ encodeULEB128 5) ++
  ([Opcodes.LOCAL_GET] ++ encodeULEB128 7) ++
  ([Opcodes.LOCAL_GET] ++ encodeULEB128 16) ++
  [Opcodes.I32_ADD] ++
  ([Opcodes.I32_CONST] ++ encodeSLEB128 5) ++
  [Opcodes.I32_SHR_U] ++
  ([Opcodes.LOCAL_GET] ++ encodeULEB128 15) ++
  ([Opcodes.LOCAL_GET] ++ encodeULEB128 12) ++
  [Opcodes.I32_MUL] ++
  [Opcodes.I32_ADD] ++
  ([Opcodes.I32_CONST] ++ encodeSLEB128 2) ++
  [Opcodes.I32_SHL] ++
  [Opcodes.I32_ADD] ++
  -- load current destination word into temp (lines 391-392)
  [Opcodes.I32_LOAD, 0x02, 0x00] ++
  ([Opcodes.LOCAL_SET] ++ encodeULEB128 19) ++
  -- srcBit == 1 (lines 395-397)
  ([Opcodes.LOCAL_GET] ++ encodeULEB128 17) ++
  ([Opcodes.I32_CONST] ++ encodeSLEB128 1) ++
  [Opcodes.I32_EQ] ++
  -- if (line 400)
  [Opcodes.IF, 0x40] ++
  -- temp |= 1 << dstBitPos (lines 403-408)
  ([Opcodes.LOCAL_GET] ++ encodeULEB128 19) ++
  ([Opcodes.I32_CONST] ++ encodeSLEB128 1) ++
  ([Opcodes.LOCAL_GET] ++ encodeULEB128 18) ++
  [Opcodes.I32_SHL] ++
  [Opcodes.I32_OR] ++
  ([Opcodes.LOCAL_SET] ++ encodeULEB128 19) ++
  -- else (line 410)
  [Opcodes.ELSE] ++
  -- temp &= (1 << dstBitPos) xor -1 (lines 413-420)
  ([Opcodes.LOCAL_GET] ++ encodeULEB128 19) ++
  ([Opcodes.I32_CONST] ++ encodeSLEB128 1) ++
  ([Opcodes.LOCAL_GET] ++ encodeULEB128 18) ++
  [Opcodes.I32_SHL] ++
  ([Opcodes.I32_CONST] ++ encodeSLEB128 (-1)) ++
  [Opcodes.I32_XOR] ++
  [Opcodes.I32_AND] ++
  ([Opcodes.LOCAL_SET] ++ encodeULEB128 19) ++
  -- end if (line 422)
  [Opcodes.END] ++
  -- recompute the destination word byte address (lines 425-437)
  ([Opcodes.LOCAL_GET] ++ encodeULEB128 5) ++
  ([Opcodes.LOCAL_GET] ++ encodeULEB128 7) ++
  ([Opcodes.LOCAL_GET] ++ encodeULEB128 16) ++
  [Opcodes.I32_ADD] ++
  ([Opcodes.I32_CONST] ++ encodeSLEB128 5) ++
  [Opcodes.I32_SHR_U] ++
  ([Opcodes.LOCAL_GET] ++ encodeULEB128 15) ++
  ([Opcodes.LOCAL_GET] ++ encodeULEB128 12) ++
  [Opcodes.I32_MUL] ++
  [Opcodes.I32_ADD] ++
  ([Opcodes.I32_CONST] ++ encodeSLEB128 2) ++
  [Opcodes.I32_SHL] ++
  [Opcodes.I32_ADD] ++
  -- store temp (lines 438-439)
  ([Opcodes.LOCAL_GET] ++ encodeULEB128 19) ++
  [Opcodes.I32_STORE, 0x02, 0x00] ++
  -- x++ (lines 442-445)
  ([Opcodes.LOCAL_GET] ++ encodeULEB128 16) ++
  ([Opcodes.I32_CONST] ++ encodeSLEB128 1) ++
  [Opcodes.I32_ADD] ++
  ([Opcodes.LOCAL_SET] ++ encodeULEB128 16) ++
  -- continue inner loop; close inner loop and block (lines 448-450)
  [Opcodes.BR, 0x00] ++
  [Opcodes.END] ++
  [Opcodes.END] ++
  -- y++ (lines 453-456)
  ([Opcodes.LOCAL_GET] ++ encodeULEB128 13) ++
  ([Opcodes.I32_CONST] ++ encodeSLEB128 1) ++
  [Opcodes.I32_ADD] ++
  ([Opcodes.LOCAL_SET] ++ encodeULEB128 13) ++
  -- continue outer loop; close outer loop and block (lines 459-461)
  [Opcodes.BR, 0x00] ++
  [Opcodes.END] ++
  [Opcodes.END] ++
  -- function end (line 464)
  [Opcodes.END]

/-! ### Decoding the emitted byte stream back into instructions -/

inductive WInstr where
  | wblock
  | wloop
  | wif
  | welse
  | wend
  | wbr (l : Nat)
  | wbrIf (l : Nat)
  | wlocalGet (i : Nat)
  | wlocalSet (i : Nat)
  | wlocalTee (i : Nat)
  | wi32Const (v : Int)
  | wi32Load (align offset : Nat)
  | wi32Store (align offset : Nat)
  | wi32Eqz
  | wi32Eq
  | wi32LtS
  | wi32Add
  | wi32Mul
  | wi32And
  | wi32Or
  | wi32Xor
  | wi32Shl
  | wi32ShrU
deriving DecidableEq

/-- Consume one ULEB128 immediate from a byte stream. -/
def parseULEB : List Nat → Option (Nat × List Nat)
  | [] => none
  | b :: rest =>
      if b < 0x80 then some (b, rest)
      else
        match parseULEB rest with
        | some (v, rest2) => some ((b &&& 0x7f) + 128 * v, rest2)
        | none => none

/-- Consume one SLEB128 immediate from a byte stream. -/
def parseSLEB : List Nat → Option (Int × List Nat)
  | [] => none
  | b :: rest =>
      if b < 0x80 then
        some (if b &&& 0x40 ≠ 0 then (b : Int) - 128 else (b : Int), rest)
      else
        match parseSLEB rest with
        | some (v, rest2) => some (((b &&& 0x7f : Nat) : Int) + 128 * v, rest2)
        | none => none

/-- Decode one instruction (only the opcodes the body generator uses;
`block`, `loop` and `if` must carry the empty blocktype 0x40). -/
def decodeOne : List Nat → Option (WInstr × List Nat)
  | [] => none
  | b :: rest =>
      if b = Opcodes.BLOCK then
        match rest with
        | 0x40 :: r2 => some (.wblock, r2)
        | _ => none
      else if b = Opcodes.LOOP then
        match rest with
        | 0x40 :: r2 => some (.wloop, r2)
        | _ => none
      else if b = Opcodes.IF then
        match rest with
        | 0x40 :: r2 => some (.wif, r2)
        | _ => none
      else if b = Opcodes.ELSE then some (.welse, rest)
      else if b = Opcodes.END then some (.wend, rest)
      else if b = Opcodes.BR then
        match parseULEB rest with
        | some (l, r2) => some (.wbr l, r2)
        | none => none
      else if b = Opcodes.BR_IF then
        match parseULEB rest with
        | some (l, r2) => some (.wbrIf l, r2)
        | none => none
      else if b = Opcodes.LOCAL_GET then
        match parseULEB rest with
        | some (i, r2) => some (.wlocalGet i, r2)
        | none => none
      else if b = Opcodes.LOCAL_SET then
        match parseULEB rest with
        | some (i, r2) => some (.wlocalSet i, r2)
        | none => none
      else if b = Opcodes.LOCAL_TEE then
        match parseULEB rest with
        | some (i, r2) => some (.wlocalTee i, r2)
        | none => none
      else if b = Opcodes.I32_CONST then
        match parseSLEB rest with
        | some (v, r2) => some (.wi32Const v, r2)
        | none => none
      else if b = Opcodes.I32_LOAD then
        match parseULEB rest with
        | some (a, r2) =>
            match parseULEB r2 with
            | some (o, r3) => some (.wi32Load a o, r3)
            | none => none
        | none => none
      else if b = Opcodes.I32_STORE then
        match parseULEB rest with
        | some (a, r2) =>
            match parseULEB r2 with
            | some (o, r3) => some (.wi32Store a o, r3)
            | none => none
        | none => none
      else if b = Opcodes.I32_EQZ then some (.wi32Eqz, rest)
      else if b = Opcodes.I32_EQ then some (.wi32Eq, rest)
      else if b = Opcodes.I32_LT_S then some (.wi32LtS, rest)
      else if b = Opcodes.I32_ADD then some (.wi32Add, rest)
      else if b = Opcodes.I32_MUL then some (.wi32Mul, rest)
      else if b = Opcodes.I32_AND then some (.wi32And, rest)
      else if b = Opcodes.I32_OR then some (.wi32Or, rest)
      else if b = Opcodes.I32_XOR then some (.wi32Xor, rest)
      else if b = Opcodes.I32_SHL then some (.wi32Shl, rest)
      else if b = Opcodes.I32_SHR_U then some (.wi32ShrU, rest)
      else none

/-- Decode a whole instruction stream (fuel-bounded). -/
def decodeInstrs : Nat → List Nat → Option (List WInstr)
  | _, [] => some []
  | 0, _ :: _ => none
  | fuel + 1, bs =>
      match decodeOne bs with
      | some (i, rest) =>
          match decodeInstrs fuel rest with
          | some is => some (i :: is)
          | none => none
      | none => none

/-- Strip the local-declaration header of a function body, returning
the number of declared locals and the instruction bytes. -/
def stripLocalsAux : Nat → List Nat → Nat → Option (Nat × List Nat)
  | 0, rest, acc => some (acc, rest)
  | g + 1, rest, acc =>
      match parseULEB rest with
      | some (cnt, rest2) =>
          match rest2 with
          | _ :: rest3 => stripLocalsAux g rest3 (acc + cnt)
          | [] => none
      | none => none

def stripLocals (body : List Nat) : Option (Nat × List Nat) :=
  match parseULEB body with
  | some (groups, rest) => stripLocalsAux groups rest 0
  | none => none

/-! ### A type-stack validator in the style of the WebAssembly
reference validation algorithm

Frames record the construct kind, the operand-stack height at entry and
the unreachable flag. As in the reference algorithm, a taken branch
truncates the tracked height to the frame's entry height and marks the
frame unreachable, so the `end` check `height = start` is the "operand
stack empty at each end" discipline. -/

inductive VKind where
  | kBlock
  | kLoop
  | kIf
deriving DecidableEq

structure VFrame where
  kind : VKind
  start : Nat
  unreachable : Bool
deriving DecidableEq

/-- Pop one operand: underflowing a reachable frame is a validation
error; an unreachable frame pops polymorphically. -/
def vpop (f : VFrame) (h : Nat) : Option Nat :=
  if f.start < h then some (h - 1)
  else if f.unreachable && h = f.start then some h
  else none

def vpop2 (f : VFrame) (h : Nat) : Option Nat :=
  match vpop f h with
  | some h2 => vpop f h2
  | none => none

def validateInstrs (numLocals : Nat) : List WInstr → Nat → List VFrame → Bool
  | [], _, frames => frames.isEmpty
  | i :: rest, h, frames =>
      match frames with
      | [] => false
      | f :: fs =>
          match i with
          | .wlocalGet idx => decide (idx < numLocals) && validateInstrs numLocals rest (h + 1) (f :: fs)
          | .wlocalSet idx =>
              decide (idx < numLocals) &&
                match vpop f h with
                | some h2 => validateInstrs numLocals rest h2 (f :: fs)
                | none => false
          | .wlocalTee idx =>
              decide (idx < numLocals) &&
                match vpop f h with
                | some h2 => validateInstrs numLocals rest (h2 + 1) (f :: fs)
                | none => false
          | .wi32Const _ => validateInstrs numLocals rest (h + 1) (f :: fs)
          | .wi32Eqz =>
              match vpop f h with
              | some h2 => validateInstrs numLocals rest (h2 + 1) (f :: fs)
              | none => false
          | .wi32Load a _ =>
              decide (a ≤ 2) &&
                match vpop f h with
                | some h2 => validateInstrs numLocals rest (h2 + 1) (f :: fs)
                | none => false
          | .wi32Store a _ =>
              decide (a ≤ 2) &&
                match vpop2 f h with
                | some h2 => validateInstrs numLocals rest h2 (f :: fs)
                | none => false
          | .wi32Eq | .wi32LtS | .wi32Add | .wi32Mul | .wi32And | .wi32Or
          | .wi32Xor | .wi32Shl | .wi32ShrU =>
              match vpop2 f h with
              | some h2 => validateInstrs numLocals rest (h2 + 1) (f :: fs)
              | none => false
          | .wblock => validateInstrs numLocals rest h (⟨.kBlock, h, false⟩ :: f :: fs)
          | .wloop => validateInstrs numLocals rest h (⟨.kLoop, h, false⟩ :: f :: fs)
          | .wif =>
              match vpop f h with
              | some h2 => validateInstrs numLocals rest h2 (⟨.kIf, h2, false⟩ :: f :: fs)
              | none => false
          | .welse =>
              decide (f.kind = .kIf) && decide (h = f.start) &&
                validateInstrs numLocals rest f.start (⟨.kBlock, f.start, false⟩ :: fs)
          | .wend =>
              decide (h = f.start) && validateInstrs numLocals rest f.start fs
          | .wbr l =>
              decide (l < (f :: fs).length) &&
                validateInstrs numLocals rest f.start ({ f with unreachable := true } :: fs)
          | .wbrIf l =>
              decide (l < (f :: fs).length) &&
                match vpop f h with
                | some h2 => validateInstrs numLocals rest h2 (f :: fs)
                | none => false

/-- Branch-target discipline: every `br` is `br 0` with the innermost
frame a loop; every `br_if` is `br_if 1` with the enclosing frame a
block. -/
def brDiscipline : List WInstr → List VKind → Bool
  | [], _ => true
  | i :: rest, ks =>
      match i with
      | .wblock => brDiscipline rest (.kBlock :: ks)
      | .wloop => brDiscipline rest (.kLoop :: ks)
      | .wif => brDiscipline rest (.kIf :: ks)
      | .wend =>
          match ks with
          | _ :: ks2 => brDiscipline rest ks2
          | [] => false
      | .wbr l => decide (l = 0) && (ks.head? == some .kLoop) && brDiscipline rest ks
      | .wbrIf l => decide (l = 1) && (ks[1]? == some .kBlock) && brDiscipline rest ks
      | _ => brDiscipline rest ks

/-- Full structural check of a function body: the local header parses,
the instruction stream decodes completely, the stream validates against
the reference type-stack algorithm starting in the function frame (so
every `block`/`loop`/`if` is matched by an `end`, the operand stack is
back to the frame height at each `end`, and the final `end` closes the
function), and the branch targets follow the loop/block discipline. -/
def validateBody (body : List Nat) : Bool :=
  match stripLocals body with
  | some (nLocals, instrBytes) =>
      match decodeInstrs (instrBytes.length + 1) instrBytes with
      | some instrs =>
          validateInstrs (11 + nLocals) instrs 0 [⟨.kBlock, 0, false⟩] &&
            brDiscipline instrs [.kBlock]
      | none => false
  | none => false

/-! ### An executable small-step semantics for the decoded body

Structured code: the flat instruction stream is folded into nested
blocks, loops and conditionals; execution follows the WebAssembly
semantics for the instruction subset the generator emits. Linear
memory is a byte list (little-endian words); every memory access is
appended to a trace of (isStore, byte address) pairs. -/

inductive WStmt where
  | plain (i : WInstr)
  | sblock (body : List WStmt)
  | sloop (body : List WStmt)
  | sif (thn els : List WStmt)

/-- Fold a flat instruction stream into structured statements. The
result triple of each step is (statements, ended-by-else, remaining
stream). -/
def parseStmts : Nat → List WInstr → Option (List WStmt × Bool × List WInstr)
  | 0, _ => none
  | _, [] => none
  | fuel + 1, i :: rest =>
      match i with
      | .wend => some ([], false, rest)
      | .welse => some ([], true, rest)
      | .wblock =>
          match parseStmts fuel rest with
          | some (body, false, r2) =>
              match parseStmts fuel r2 with
              | some (stmts, t, r3) => some (.sblock body :: stmts, t, r3)
              | none => none
          | _ => none
      | .wloop =>
          match parseStmts fuel rest with
          | some (body, false, r2) =>
              match parseStmts fuel r2 with
              | some (stmts, t, r3) => some (.sloop body :: stmts, t, r3)
              | none => none
          | _ => none
      | .wif =>
          match parseStmts fuel rest with
          | some (thn, true, r2) =>
              match parseStmts fuel r2 with
              | some (els, false, r3) =>
                  match parseStmts fuel r3 with
                  | some (stmts, t, r4) => some (.sif thn els :: stmts, t, r4)
                  | none => none
              | _ => none
          | some (thn, false, r2) =>
              match parseStmts fuel r2 with
              | some (stmts, t, r3) => some (.sif thn [] :: stmts, t, r3)
              | none => none
          | none => none
      | _ =>
          match parseStmts fuel rest with
          | some (stmts, t, r2) => some (.plain i :: stmts, t, r2)
          | none => none

/-- The function body is one statement list closed by the final `end`. -/
def parseBody (instrs : List WInstr) : Option (List WStmt) :=
  match parseStmts (2 * instrs.length + 2) instrs with
  | some (stmts, false, []) => some stmts
  | _ => none

/-- Signed view of a 32-bit word. -/
def toInt32 (n : Nat) : Int :=
  if n < 2 ^ 31 then (n : Int) else (n : Int) - 2 ^ 32

/-- Little-endian 32-bit read; `none` is an out-of-bounds trap. -/
def readWord (mem : List Nat) (addr : Nat) : Option Nat :=
  if addr + 4 ≤ mem.length then
    some (mem.getD addr 0 + 256 * mem.getD (addr + 1) 0 +
      65536 * mem.getD (addr + 2) 0 + 16777216 * mem.getD (addr + 3) 0)
  else none

/-- Little-endian 32-bit write; `none` is an out-of-bounds trap. -/
def writeWord (mem : List Nat) (addr v : Nat) : Option (List Nat) :=
  if addr + 4 ≤ mem.length then
    some ((((mem.set addr (v % 256)).set (addr + 1) (v / 256 % 256)).set
      (addr + 2) (v / 65536 % 256)).set (addr + 3) (v / 16777216 % 256))
  else none

def evalBinop (i : WInstr) (a b : Nat) : Nat :=
  match i with
  | .wi32Add => (a + b) % 2 ^ 32
  | .wi32Mul => (a * b) % 2 ^ 32
  | .wi32And => a &&& b
  | .wi32Or => a ||| b
  | .wi32Xor => a ^^^ b
  | .wi32Shl => (a <<< (b % 32)) % 2 ^ 32
  | .wi32ShrU => a >>> (b % 32)
  | .wi32Eq => if a = b then 1 else 0
  | .wi32LtS => if toInt32 a < toInt32 b then 1 else 0
  | _ => 0

structure WState where
  locals : List Nat
  mem : List Nat
  trace : List (Bool × Nat)
deriving DecidableEq

inductive WRes where
  | ok (st : WState) (stack : List Nat)
  | brk (l : Nat) (st : WState)
  | trap
deriving DecidableEq

/-- Execute structured statements with an explicit fuel bound. Each
structured frame runs its body on a fresh operand stack (values below a
label are unreachable from inside it); a taken branch discards the
frame's operand stack, matching the WebAssembly label semantics. -/
def execStmts : Nat → WState → List Nat → List WStmt → WRes
  | 0, _, _, _ => .trap
  | _ + 1, st, stack, [] => .ok st stack
  | fuel + 1, st, stack, s :: rest =>
      match s with
      | .plain i =>
          match i with
          | .wlocalGet idx => execStmts fuel st (st.locals.getD idx 0 :: stack) rest
          | .wlocalSet idx =>
              match stack with
              | v :: stack2 =>
                  execStmts fuel { st with locals := st.locals.set idx v } stack2 rest
              | [] => .trap
          | .wlocalTee idx =>
              match stack with
              | v :: stack2 =>
                  execStmts fuel { st with locals := st.locals.set idx v } (v :: stack2) rest
              | [] => .trap
          | .wi32Const z => execStmts fuel st (toUint32 z :: stack) rest
          | .wi32Eqz =>
              match stack with
              | v :: stack2 => execStmts fuel st ((if v = 0 then 1 else 0) :: stack2) rest
              | [] => .trap
          | .wi32Load _ off =>
              match stack with
              | addr :: stack2 =>
                  match readWord st.mem (addr + off) with
                  | some v =>
                      execStmts fuel { st with trace := st.trace ++ [(false, addr + off)] }
                        (v :: stack2) rest
                  | none => .trap
              | [] => .trap
          | .wi32Store _ off =>
              match stack with
              | v :: addr :: stack2 =>
                  match writeWord st.mem (addr + off) v with
                  | some m2 =>
                      execStmts fuel
                        { st with mem := m2, trace := st.trace ++ [(true, addr + off)] }
                        stack2 rest
                  | none => .trap
              | _ => .trap
          | .wbr l => .brk l st
          | .wbrIf l =>
              match stack with
              | v :: stack2 =>
                  if v ≠ 0 then .brk l st else execStmts fuel st stack2 rest
              | [] => .trap
          | .wblock | .wloop | .wif | .welse | .wend => .trap
          | _ =>
              match stack with
              | b :: a :: stack2 => execStmts fuel st (evalBinop i a b :: stack2) rest
              | _ => .trap
      | .sblock body =>
          match execStmts fuel st [] body with
          | .ok st2 _ => execStmts fuel st2 stack rest
          | .brk 0 st2 => execStmts fuel st2 stack rest
          | .brk (l + 1) st2 => .brk l st2
          | .trap => .trap
      | .sloop body =>
          match execStmts fuel st [] body with
          | .ok st2 _ => execStmts fuel st2 stack rest
          | .brk 0 st2 => execStmts fuel st2 stack (s :: rest)
          | .brk (l + 1) st2 => .brk l st2
          | .trap => .trap
      | .sif thn els =>
          match stack with
          | c :: stack2 =>
              match execStmts fuel st [] (if c ≠ 0 then thn else els) with
              | .ok st2 _ => execStmts fuel st2 stack2 rest
              | .brk 0 st2 => execStmts fuel st2 stack2 rest
              | .brk (l + 1) st2 => .brk l st2
              | .trap => .trap
          | [] => .trap

/-- Instantiate and run the emitted function body: parse the locals
header, decode and structure the opcode stream, initialize the locals
to the eleven arguments followed by zeros, and execute on the given
byte memory. -/
def runBitBLTBody (args : List Nat) (mem : List Nat) (fuel : Nat) : Option WRes :=
  match stripLocals generateBitBLTFunctionBody with
  | some (nLocals, instrBytes) =>
      match decodeInstrs (instrBytes.length + 1) instrBytes with
      | some instrs =>
          match parseBody instrs with
          | some stmts =>
              some (execStmts fuel
                { locals := args ++ List.replicate nLocals 0, mem := mem, trace := [] }
                [] stmts)
          | none => none
      | none => none
  | none => none

/-- Final memory of a completed run. -/
def runBitBLTMem (args : List Nat) (mem : List Nat) : Option (List Nat) :=
  match runBitBLTBody args mem 100000 with
  | some (.ok st _) => some st.mem
  | _ => none

/-- Memory-access trace of a completed run. -/
def runBitBLTTrace (args : List Nat) (mem : List Nat) : Option (List (Bool × Nat)) :=
  match runBitBLTBody args mem 100000 with
  | some (.ok st _) => some st.trace
  | _ => none

set_option maxRecDepth 100000

theorem encodeULEB128_small (n : Nat) (h : n < 128) : encodeULEB128 n = [n] := by
  rw [encodeULEB128, dif_pos (show n >>> 7 = 0 by rw [shiftRight7_eq]; omega)]
  congr 1
  rw [and127_eq_mod]
  omega

theorem encodeSLEB128_small (v : Int) (h0 : 0 ≤ v) (h : v < 64) :
    encodeSLEB128 v = [v.toNat] := by
  have hq : v / 128 = 0 := by omega
  have hr : v % 128 = v := by omega
  have ht : (v % 128).toNat < 64 := by omega
  rw [encodeSLEB128,
    dif_pos (Or.inl ⟨hq, (and64_iff _ (by omega)).mpr ht⟩)]
  congr 1
  omega

theorem encodeSLEB128_neg_one : encodeSLEB128 (-1) = [0x7f] := by
  rw [encodeSLEB128, dif_pos (Or.inr ⟨by decide, by decide⟩)]
  decide

/-- The concrete byte stream of the emitted function body. -/
theorem generateBitBLTFunctionBody_eq :
    generateBitBLTFunctionBody =
      [9, 1, 127, 1, 127, 1, 127, 1, 127, 1, 127, 1, 127, 1, 127, 1, 127, 1, 127,
       32, 1, 65, 31, 106, 65, 5, 118, 33, 11,
       32, 6, 65, 31, 106, 65, 5, 118, 33, 12,
       65, 0, 33, 13, 2, 64, 3, 64,
       32, 13, 32, 10, 72, 69, 13, 1,
       32, 4, 32, 13, 106, 33, 14,
       32, 8, 32, 13, 106, 33, 15,
       65, 0, 33, 16, 2, 64, 3, 64,
       32, 16, 32, 9, 72, 69, 13, 1,
       32, 3, 32, 16, 106, 65, 5, 118, 32, 14, 32, 11, 108, 106, 32, 0, 106,
       32, 3, 32, 16, 106, 65, 31, 113, 40, 2, 0, 118, 65, 1, 113, 33, 17,
       32, 7, 32, 16, 106, 65, 5, 118, 32, 15, 32, 12, 108, 106, 32, 5, 106,
       32, 7, 32, 16, 106, 65, 31, 113, 34, 18,
       32, 5, 32, 7, 32, 16, 106, 65, 5, 118, 32, 15, 32, 12, 108, 106, 65, 2,
       116, 106, 40, 2, 0, 33, 19,
       32, 17, 65, 1, 70, 4, 64,
       32, 19, 65, 1, 32, 18, 116, 114, 33, 19,
       5,
       32, 19, 65, 1, 32, 18, 116, 65, 127, 115, 113, 33, 19,
       11,
       32, 5, 32, 7, 32, 16, 106, 65, 5, 118, 32, 15, 32, 12, 108, 106, 65, 2,
       116, 106, 32, 19, 54, 2, 0,
       32, 16, 65, 1, 106, 33, 16, 12, 0, 11, 11,
       32, 13, 65, 1, 106, 33, 13, 12, 0, 11, 11, 11] := by
  rw [generateBitBLTFunctionBody]
  rw [encodeULEB128_small 9 (by omega), encodeULEB128_small 1 (by omega),
    encodeULEB128_small 6 (by omega), encodeULEB128_small 11 (by omega),
    encodeULEB128_small 12 (by omega), encodeULEB128_small 13 (by omega),
    encodeULEB128_small 10 (by omega), encodeULEB128_small 4 (by omega),
    encodeULEB128_small 8 (by omega), encodeULEB128_small 15 (by omega),
    encodeULEB128_small 16 (by omega),
    encodeULEB128_small 3 (by omega), encodeULEB128_small 14 (by omega),
    encodeULEB128_small 0 (by omega), encodeULEB128_small 17 (by omega),
    encodeULEB128_small 7 (by omega), encodeULEB128_small 5 (by omega),
    encodeULEB128_small 18 (by omega), encodeULEB128_small 19 (by omega),
    encodeSLEB128_small 31 (by omega) (by omega),
    encodeSLEB128_small 5 (by omega) (by omega),
    encodeSLEB128_small 0 (by omega) (by omega),
    encodeSLEB128_small 1 (by omega) (by omega),
    encodeSLEB128_small 2 (by omega) (by omega),
    encodeSLEB128_neg_one]
  rfl

/-- Claim C4: the function body emitted by the binary back-end
satisfies the structured-control discipline: the locals header parses,
the opcode stream decodes, every `block`/`loop`/`if` is matched by an
`end` and the final `end` closes the function, the reference type-stack
validation algorithm accepts the body with the operand stack back at
the frame height at every `end` (taken branches truncating to the
frame height, as the algorithm prescribes), and every `br` is `br 0`
into the innermost loop while every `br_if` is `br_if 1` out of the
enclosing block. The generator ignores its `options` argument, so this
one byte stream is the body for every options record. -/
theorem wasm_body_structured_control :
    validateBody generateBitBLTFunctionBody = true := by
  rw [validateBody, generateBitBLTFunctionBody_eq]
  rfl

/-- Claim C1 (evaluation at the failing input): the "in particular"
half of the claim holds — the function compiled from the code emitted
by the textual back-end with default flags computes the reference
`bitblt` on every input — but the all-back-ends half fails at the
binary back-end. Stage a one-word source buffer `[1]` at byte 0 and a
one-word destination `[0]` at byte 64 of the module memory, and invoke
the emitted body with (srcPtr=0, srcWidth=32, srcHeight=1, srcX=0,
srcY=0, dstPtr=64, dstWidth=32, dstX=0, dstY=0, width=1, height=1).
The body completes and leaves the destination word `0`, while the
reference oracle on the same buffers produces destination `[1]` — the
binary back-end's result is not bit-for-bit equal to the oracle's.
(Root cause: the emitted source load reads from the bit-position
address and never scales the source word index by 4, so the computed
source bit is garbage.) -/
theorem wasm_body_result_ne_oracle :
    (∀ (srcBuffer : List Nat) (srcWidth srcHeight srcX srcY : Nat)
      (dstBuffer : List Nat) (dstWidth dstX dstY width height : Nat),
      generatedBitBLT srcWidth dstWidth srcX dstX srcBuffer srcWidth srcHeight
          srcX srcY dstBuffer dstWidth dstX dstY width height =
        bitbltRef srcBuffer srcWidth srcHeight srcX srcY dstBuffer dstWidth
          dstX dstY width height) ∧
    (runBitBLTMem [0, 32, 1, 0, 0, 64, 32, 0, 0, 1, 1]
        ((List.replicate 128 0).set 0 1)).map (fun m => readWord m 64) =
      some (some 0) ∧
    bitbltRef [1] 32 1 0 0 [0] 32 0 0 1 1 = [1] ∧
    (0 : Nat) ≠ 1 := by
  refine ⟨generatedBitBLT_eq_ref, ?_, rfl, by decide⟩
  rw [runBitBLTMem, runBitBLTBody, generateBitBLTFunctionBody_eq]
  rfl

/-- Claim C3 (evaluation at the failing input): with the source buffer
based at byte 8 and srcX = 1, the required source-load address is the
word index `(srcXAbs >> 5) + srcYAbs * srcStrideWords = 0` scaled by 4
plus the base 8, i.e. byte 8; but the body's memory-access trace is
`load 1, load 64, store 64`: the first access — the source load — reads
byte address 1 (the source bit position), not 8. The destination load
and store (addresses `4*wordIndex + dstPtr = 64`) do follow the
scale-by-4-and-add-base rule; the source load does not. -/
theorem wasm_source_load_wrong_address :
    runBitBLTTrace [8, 32, 1, 1, 0, 64, 32, 0, 0, 1, 1]
        (List.replicate 128 0) = some [(false, 1), (false, 64), (true, 64)] ∧
    4 * ((1 + 0) / 32 + (0 + 0) * widthInUint32 32) + 8 = 8 ∧
    (1 : Nat) ≠ 8 := by
  refine ⟨?_, by decide, by decide⟩
  rw [runBitBLTTrace, runBitBLTBody, generateBitBLTFunctionBody_eq]
  rfl

end BitBLT
